import Mathlib

/-!
Verification development for the digest / HMAC / KDF engine of
`lib/passlib/crypto/digest.py` (hash-name resolution, `compile_hmac`,
`pbkdf1`, `pbkdf2_hmac` and its builtin inner-loop backends).

Octet strings and names are modelled as `List Nat` (octet values,
resp. unicode codepoints); a hash constructor is modelled as a function
`List Nat → List Nat` mapping the whole fed byte sequence to its digest,
which captures the `const(data).digest()` / `copy()/update()` discipline
of `hashlib` objects used by the source.
-/

namespace PasslibDigest

/-- Octet strings (and, for the resolver, character strings as codepoints). -/
abbrev Bytes := List Nat

/-- Codepoint list of a string literal, used to transcribe the source's
string constants. -/
def strNat (s : String) : List Nat := s.data.map Char.toNat

/-- All entries of an octet string are octets. -/
def bytesWF (l : Bytes) : Prop := ∀ b ∈ l, b < 256

instance (l : Bytes) : Decidable (bytesWF l) := by
  unfold bytesWF; infer_instance

/-- Octet-wise XOR of two equal-length octet strings (`bytes a ^ bytes b`). -/
def xorBytes (a b : Bytes) : Bytes := List.zipWith (fun x y => x ^^^ y) a b

/-- Model of Python's `int.from_bytes(l, "big")`. -/
def ofBytesBE (l : Bytes) : Nat := l.foldl (fun acc b => acc * 256 + b) 0

/-- Model of Python's `n.to_bytes(k, "big")` (truncating to `k` octets). -/
def toBytesBE : Nat → Nat → Bytes
  | 0, _ => []
  | k + 1, n => toBytesBE k (n / 256) ++ [n % 256]

/-- Model of `_pack_uint32 = Struct(">L").pack`: 4-octet big-endian encoding. -/
def be32 (i : Nat) : Bytes := toBytesBE 4 i

/-! HMAC compiler (`compile_hmac`, digest.py lines 458-537).

A `hashlib` constructor is modelled as `const : Bytes → Bytes`, sending the
whole sequence of octets fed to the hash object to its digest; a partially
fed hash object is represented by the octets fed so far (its `copy()` is the
same octet sequence, `update` appends, `digest()` applies `const`). -/

/-- Model of `_TRANS_5C = join_byte_values((x ^ 0x5C) for x in irange(256))`. -/
def _TRANS_5C : Bytes := (List.range 256).map (fun x => x ^^^ 0x5C)

/-- Model of `_TRANS_36 = join_byte_values((x ^ 0x36) for x in irange(256))`. -/
def _TRANS_36 : Bytes := (List.range 256).map (fun x => x ^^^ 0x36)

/-- Model of Python's `bytes.translate(table)`: every octet is replaced by
the table entry it indexes. -/
def pyTranslate (table : Bytes) (s : Bytes) : Bytes := s.map (fun b => table.getD b 0)

/-- Key schedule of `compile_hmac` (digest.py lines 498-506): a key longer
than `block_size` is replaced by its digest (whose length the source takes
to be `digest_size`), then right-padded with zero octets up to `block_size`.
Written with truncated subtraction, the two padding branches of the source
collapse into a single append. -/
def hmacPadKey (const : Bytes → Bytes) (digest_size block_size : Nat) (key : Bytes) : Bytes :=
  let kp := if block_size < key.length then (const key, digest_size) else (key, key.length)
  kp.1 ++ List.replicate (block_size - kp.2) 0

/-- Octets fed to the pre-initialized inner hash state (`const(key.translate(_TRANS_36))`). -/
def hmacInnerSeed (const : Bytes → Bytes) (digest_size block_size : Nat) (key : Bytes) : Bytes :=
  pyTranslate _TRANS_36 (hmacPadKey const digest_size block_size key)

/-- Octets fed to the pre-initialized outer hash state (`const(key.translate(_TRANS_5C))`). -/
def hmacOuterSeed (const : Bytes → Bytes) (digest_size block_size : Nat) (key : Bytes) : Bytes :=
  pyTranslate _TRANS_5C (hmacPadKey const digest_size block_size key)

/-- Single-shot function returned by `compile_hmac(digest, key)` (digest.py
lines 527-533): duplicate the inner seed, feed `msg`, finalize; feed that
digest into a duplicate of the outer seed and finalize.
Precondition in the source (an `assert`): `block_size ≥ 16`. -/
def compile_hmac (const : Bytes → Bytes) (digest_size block_size : Nat) (key : Bytes)
    (msg : Bytes) : Bytes :=
  const (hmacOuterSeed const digest_size block_size key ++
    const (hmacInnerSeed const digest_size block_size key ++ msg))

/-- Multipart state (digest.py lines 516-523): the octets fed so far to the
`inner` hash object obtained by duplicating the inner seed. -/
def hmacMultipartStart (const : Bytes → Bytes) (digest_size block_size : Nat)
    (key : Bytes) : Bytes :=
  hmacInnerSeed const digest_size block_size key

/-- `update(chunk)` of the multipart HMAC: streams `chunk` into the inner state. -/
def hmacUpdate (state chunk : Bytes) : Bytes := state ++ chunk

/-- `finalize()` of the multipart HMAC: finalizes a private copy of the
current inner state, feeds the digest into a fresh duplicate of the outer
seed, and finalizes that; the inner state itself is not disturbed. -/
def hmacFinalize (const : Bytes → Bytes) (outerSeed state : Bytes) : Bytes :=
  const (outerSeed ++ const state)

/-- An interleaved sequence of calls against one multipart HMAC object. -/
inductive MacOp
  | update (chunk : Bytes)
  | finalize

/-- Digests returned by the `finalize` calls when running a call sequence
against the multipart HMAC, starting from inner state `state`. -/
def runMultipart (const : Bytes → Bytes) (outerSeed : Bytes) :
    List MacOp → Bytes → List Bytes
  | [], _ => []
  | .update c :: ops, state => runMultipart const outerSeed ops (hmacUpdate state c)
  | .finalize :: ops, state =>
      hmacFinalize const outerSeed state :: runMultipart const outerSeed ops state

/-- Reference outputs: every `finalize` must report the single-shot MAC of the
concatenation of all chunks fed before it (`msg` is that concatenation so far). -/
def singleShotOutputs (mac : Bytes → Bytes) : List MacOp → Bytes → List Bytes
  | [], _ => []
  | .update c :: ops, msg => singleShotOutputs mac ops (msg ++ c)
  | .finalize :: ops, msg => mac msg :: singleShotOutputs mac ops msg

/-- HMAC as the specification states it (claim C3): key digested when longer
than the block, zero-padded to exactly `block_size`, inner/outer pads by
direct octet-wise XOR with `0x36` / `0x5C`. -/
def hmacSpec (const : Bytes → Bytes) (block_size : Nat) (key msg : Bytes) : Bytes :=
  let k0 := if block_size < key.length then const key else key
  let k := k0 ++ List.replicate (block_size - k0.length) 0
  const ((k.map (fun b => b ^^^ 0x5C)) ++ const ((k.map (fun b => b ^^^ 0x36)) ++ msg))

/-! PBKDF1 (digest.py lines 542-599) and PBKDF2 (lines 605-730, 743-845). -/

/-- Maximum 32-bit value (digest.py line 58). -/
def MAX_UINT32 : Nat := 2 ^ 32 - 1

/-- Typed errors raised by the KDF entry points.  The spec's `InvalidParameter`
covers `invalidRounds` / `invalidKeylen` / `keylenTooLargeForDigest`
(distinct `ValueError`s in the source), `KeyTooLong` is the `OverflowError`
of line 673, and `UnsupportedDigestSize` the `NotImplementedError` of line 798. -/
inductive KdfError
  | invalidRounds
  | invalidKeylen
  | keylenTooLargeForDigest
  | keyTooLong
  | unsupportedDigestSize
deriving DecidableEq, Repr

/-- Main loop of `pbkdf1` (lines 596-598): `block = secret + salt`, then
`rounds` times `block = const(block).digest()`. -/
def pbkdf1Loop (const : Bytes → Bytes) (rounds : Nat) (block : Bytes) : Bytes :=
  (List.range rounds).foldl (fun b _ => const b) block

/-- `pbkdf1(digest, secret, salt, rounds, keylen)` (lines 542-599).  `rounds`
and `keylen` are Python integers, so they are taken as `Int` (with `none`
for an omitted `keylen`); type-errors for non-integers are outside the model. -/
def pbkdf1 (const : Bytes → Bytes) (digest_size : Nat) (secret salt : Bytes)
    (rounds : Int) (keylen : Option Int) : Except KdfError Bytes :=
  if rounds < 1 then .error .invalidRounds
  else
    match keylen with
    | none => .ok ((pbkdf1Loop const rounds.toNat (secret ++ salt)).take digest_size)
    | some k =>
      if k < 0 then .error .invalidKeylen
      else if (digest_size : Int) < k then .error .keylenTooLargeForDigest
      else .ok ((pbkdf1Loop const rounds.toNat (secret ++ salt)).take k.toNat)

/-- Accumulator of the py3 `_pbkdf2_looper` (lines 719-730): `rounds - 1`
times, advance the digest through the keyed MAC and fold its
`int.from_bytes(·, "big")` value into `accum` with integer XOR. -/
def pbkdf2LooperAccum (keyed_hmac : Bytes → Bytes) : Nat → Bytes → Nat → Nat
  | 0, _, accum => accum
  | n + 1, digest, accum =>
      pbkdf2LooperAccum keyed_hmac n (keyed_hmac digest)
        (accum ^^^ ofBytesBE (keyed_hmac digest))

/-- The py3 `_pbkdf2_looper(digest_size, keyed_hmac, digest, rounds)`
("from-bytes" builtin backend, lines 719-730). -/
def pbkdf2Looper (digest_size : Nat) (keyed_hmac : Bytes → Bytes) (digest : Bytes)
    (rounds : Nat) : Bytes :=
  toBytesBE digest_size (pbkdf2LooperAccum keyed_hmac (rounds - 1) digest (ofBytesBE digest))

/-- Octet-wise XOR accumulation: the behaviour the "unpack" backend's
dynamically generated helper implements via native-word lanes, as documented
by the source itself (docstring of `_get_pbkdf2_looper`, lines 745-752). -/
def pbkdf2BytesAccum (keyed_hmac : Bytes → Bytes) : Nat → Bytes → Bytes → Bytes
  | 0, _, accum => accum
  | n + 1, digest, accum =>
      pbkdf2BytesAccum keyed_hmac n (keyed_hmac digest)
        (xorBytes accum (keyed_hmac digest))

/-- Helper returned by the "unpack" `_get_pbkdf2_looper(digest_size)`
(lines 743-843): `rounds - 1` XOR-accumulation iterations over the digest.
The dynamic per-digest-size code generation (struct lane decomposition) is
modelled by its documented octet-wise equivalent; the generator's
digest-size check lives in `pbkdf2_hmac` below. -/
def pbkdf2UnpackHelper (keyed_hmac : Bytes → Bytes) (digest : Bytes) (rounds : Nat) : Bytes :=
  pbkdf2BytesAccum keyed_hmac (rounds - 1) digest digest

/-- Which builtin inner-loop backend the module compiled in: `fromBytes` is
the py3 branch (line 713), `unpack` the branch of line 734. -/
inductive PbkdfBackendKind
  | fromBytes
  | unpack
deriving DecidableEq, Repr

/-- Block-count check and backend dispatch of `pbkdf2_hmac` (lines 671-704),
reached once `rounds` and `keylen` have been validated. -/
def pbkdf2Derive (backend : PbkdfBackendKind) (const : Bytes → Bytes)
    (digest_size block_size : Nat)
    (accel : Option (Bytes → Bytes → Int → Nat → Bytes))
    (secret salt : Bytes) (rounds : Int) (keylen : Nat) : Except KdfError Bytes :=
  let block_count := (keylen + digest_size - 1) / digest_size
  if MAX_UINT32 < block_count then .error .keyTooLong
  else
    match accel with
    | some f => .ok (f secret salt rounds keylen)
    | none =>
      let keyed_hmac := compile_hmac const digest_size block_size secret
      match backend with
      | .fromBytes =>
          .ok ((((List.range' 1 block_count).map (fun i =>
            pbkdf2Looper digest_size keyed_hmac (keyed_hmac (salt ++ be32 i))
              rounds.toNat)).join).take keylen)
      | .unpack =>
          if digest_size % 4 = 0 then
            .ok ((((List.range' 1 block_count).map (fun i =>
              pbkdf2UnpackHelper keyed_hmac (keyed_hmac (salt ++ be32 i))
                rounds.toNat)).join).take keylen)
          else .error .unsupportedDigestSize

/-- `pbkdf2_hmac(digest, secret, salt, rounds, keylen)` (lines 607-704).

`accel` abstracts the accelerated backends (`fastpbkdf2` /
`hashlib.pbkdf2_hmac`): `some f` means the per-descriptor probe reported
support, in which case the call is delegated to `f` after validation and its
result returned unmodified; `none` means the builtin path runs. -/
def pbkdf2_hmac (backend : PbkdfBackendKind) (const : Bytes → Bytes)
    (digest_size block_size : Nat)
    (accel : Option (Bytes → Bytes → Int → Nat → Bytes))
    (secret salt : Bytes) (rounds : Int) (keylen : Option Int) : Except KdfError Bytes :=
  if rounds < 1 then .error .invalidRounds
  else
    match keylen with
    | some k =>
      if k < 1 then .error .invalidKeylen
      else pbkdf2Derive backend const digest_size block_size accel secret salt rounds k.toNat
    | none => pbkdf2Derive backend const digest_size block_size accel secret salt rounds digest_size

/-- The standardized PBKDF2 block `T_i = U_1 XOR U_2 XOR … XOR U_rounds`
with `U_1 = mac(salt ‖ be32(i))` and `U_{j+1} = mac(U_j)` (claim C1). -/
def pbkdf2SpecT (digest_size : Nat) (mac : Bytes → Bytes) (salt : Bytes)
    (rounds i : Nat) : Bytes :=
  (List.range rounds).foldl
    (fun acc j => xorBytes acc (mac^[j] (mac (salt ++ be32 i))))
    (List.replicate digest_size 0)

/-- The standardized PBKDF2 result: `T_1 ‖ … ‖ T_block_count` truncated to
the first `keylen` octets. -/
def pbkdf2Spec (digest_size : Nat) (mac : Bytes → Bytes) (salt : Bytes)
    (rounds keylen block_count : Nat) : Bytes :=
  (((List.range' 1 block_count).map (pbkdf2SpecT digest_size mac salt rounds)).join).take keylen

/-- A MAC function producing well-formed digests of a fixed size. -/
def macWF (mac : Bytes → Bytes) (digest_size : Nat) : Prop :=
  ∀ m, (mac m).length = digest_size ∧ bytesWF (mac m)

/-- Toy 4-octet digest constructor used to instantiate hypotheses concretely. -/
def toyConst4 : Bytes → Bytes :=
  fun m => [m.length % 256, (m.foldl (· + ·) 0) % 256, 7, (m.headD 3) % 256]

/-- C9 counterexample: a descriptor whose digest size (2 octets) is not a
multiple of 4, with valid secret, salt, rounds and keylen, for which the
builtin ("from-bytes", the branch `pbkdf2_hmac` actually runs on Python 3)
path succeeds instead of failing with `UnsupportedDigestSize`. -/
def toyConst2 : Bytes → Bytes := fun m => [m.length % 256, 9]

/-! Hash-name normalization (`_get_hash_aliases`, digest.py lines 94-155).
Strings are lists of unicode codepoints; the relevant codepoints are
45 `-`, 95 `_`, 32 space, 47 `/`, 9-13 (other whitespace), 48-57 digits,
65-90 `A-Z`, 97-122 `a-z`. -/

/-- Characters removed by Python's `str.strip()` (ASCII whitespace). -/
def isPySpaceChar (c : Nat) : Bool :=
  c = 32 || c = 9 || c = 10 || c = 11 || c = 12 || c = 13

/-- Model of Python's `str.strip()`: drop leading and trailing whitespace. -/
def pyStrip (s : List Nat) : List Nat :=
  ((s.dropWhile isPySpaceChar).reverse.dropWhile isPySpaceChar).reverse

/-- Model of Python's `str.lower()` on the ASCII range. -/
def pyLowerChar (c : Nat) : Nat := if 65 ≤ c ∧ c ≤ 90 then c + 32 else c

/-- One character step of `re.sub("[_ /]", "-", name)`. -/
def sepToDash (c : Nat) : Nat := if c = 95 ∨ c = 32 ∨ c = 47 then 45 else c

/-- `name.strip().lower()` followed by `re.sub("[_ /]", "-", ·)` (line 111). -/
def cleanHashName (s : List Nat) : List Nat :=
  ((pyStrip s).map pyLowerChar).map sepToDash

/-- SCRAM helper (lines 112-115): strip a leading `scram-` and, then, a
trailing `-plus`. -/
def stripScram (s : List Nat) : List Nat :=
  if s.take 6 = strNat "scram-" then
    let t := s.drop 6
    if t.drop (t.length - 5) = strNat "-plus" then t.take (t.length - 5) else t
  else s

/-- The static alias table `_known_hash_names` (lines 68-89): rows of
`(hashlib/ssl name, iana name or standin, other known aliases…)`. -/
def _known_hash_names : List (List (List Nat)) :=
  [ [strNat "md2", strNat "md2"],
    [strNat "md5", strNat "md5"],
    [strNat "sha1", strNat "sha-1"],
    [strNat "sha224", strNat "sha-224", strNat "sha2-224"],
    [strNat "sha256", strNat "sha-256", strNat "sha2-256"],
    [strNat "sha384", strNat "sha-384", strNat "sha2-384"],
    [strNat "sha512", strNat "sha-512", strNat "sha2-512"],
    [strNat "md4", strNat "md4"],
    [strNat "sha", strNat "sha-0", strNat "sha0"],
    [strNat "ripemd", strNat "ripemd"],
    [strNat "ripemd160", strNat "ripemd-160"] ]

/-- `check_table(name)` (lines 118-121): first row containing `name`. -/
def check_table (name : List Nat) : Option (List (List Nat)) :=
  _known_hash_names.find? (fun row => decide (name ∈ row))

/-- Letters matched by `[a-z]` under the `(?i)` flag. -/
def isAsciiAlphaChar (c : Nat) : Bool :=
  (97 ≤ c && c ≤ 122) || (65 ≤ c && c ≤ 90)

/-- Digits matched by `\d` (ASCII). -/
def isAsciiDigitChar (c : Nat) : Bool := 48 ≤ c && c ≤ 57

/-- End anchor `$` of the structural-parse pattern. -/
def nameTailEnd (rev : Option Nat) (size : Option (List Nat)) (cs : List Nat) :
    Option (Option Nat × Option (List Nat)) :=
  if cs = [] then some (rev, size) else none

/-- `(\d{3,4})?$`, greedy: four digits, else three digits, else nothing. -/
def nameTailSize (rev : Option Nat) (cs : List Nat) :
    Option (Option Nat × Option (List Nat)) :=
  (match cs with
   | a :: b :: c :: d :: rest =>
     if isAsciiDigitChar a && isAsciiDigitChar b && isAsciiDigitChar c &&
        isAsciiDigitChar d then
       nameTailEnd rev (some [a, b, c, d]) rest
     else none
   | _ => none) <|>
  (match cs with
   | a :: b :: c :: rest =>
     if isAsciiDigitChar a && isAsciiDigitChar b && isAsciiDigitChar c then
       nameTailEnd rev (some [a, b, c]) rest
     else none
   | _ => none) <|>
  nameTailEnd rev none cs

/-- `-?` before the size group, greedy with backtracking. -/
def nameTailDash2 (rev : Option Nat) (cs : List Nat) :
    Option (Option Nat × Option (List Nat)) :=
  (match cs with
   | 45 :: rest => nameTailSize rev rest
   | _ => none) <|>
  nameTailSize rev cs

/-- `(\d)?` revision group, greedy with backtracking. -/
def nameTailRev (cs : List Nat) : Option (Option Nat × Option (List Nat)) :=
  (match cs with
   | d :: rest => if isAsciiDigitChar d then nameTailDash2 (some d) rest else none
   | _ => none) <|>
  nameTailDash2 none cs

/-- `-?` after the letter group, greedy with backtracking. -/
def nameTailDash1 (cs : List Nat) : Option (Option Nat × Option (List Nat)) :=
  (match cs with
   | 45 :: rest => nameTailRev rest
   | _ => none) <|>
  nameTailRev cs

/-- The structural parse
`re.match(r"(?i)^(?P<name>[a-z]+)-?(?P<rev>\d)?-?(?P<size>\d{3,4})?$", name)`
(line 127), returning the captured `(name, rev, size)` groups.  The letter
group is matched greedily without backtracking, which is faithful because no
later pattern element can match a letter. -/
def hashNameMatch (s : List Nat) :
    Option (List Nat × Option Nat × Option (List Nat)) :=
  let letters := s.takeWhile isAsciiAlphaChar
  let rest := s.dropWhile isAsciiAlphaChar
  if letters = [] then none
  else (nameTailDash1 rest).map (fun p => (letters, p))

/-- `_get_hash_aliases(name)` (lines 94-155): normalize, try the static
table, try the structural parse (re-checking the table with the synthesized
iana name), and finally fall back to the hyphens-to-underscores rewrite.
Returns the `(hashlib_name, iana_name, aliases…)` row. -/
def _get_hash_aliases (s : List Nat) : List (List Nat) :=
  let name := stripScram (cleanHashName s)
  match check_table name with
  | some row => row
  | none =>
    match hashNameMatch name with
    | some (letters, rev, size) =>
      let ianaBase := letters ++ (match rev with | some d => [d] | none => [])
      let iana := ianaBase ++ (match size with | some sz => 45 :: sz | none => [])
      let hashlibName := ianaBase ++
        (match size with
         | some sz => (match rev with | some _ => 95 :: sz | none => sz)
         | none => [])
      match check_table iana with
      | some row => row
      | none => [hashlibName, iana]
    | none => [name.map (fun c => if c = 45 then 95 else c), name]

/-- The hashlib-format name `_get_hash_aliases` resolves a string to. -/
def hashlibNameOf (s : List Nat) : List Nat := (_get_hash_aliases s).headD []

/-- The separator characters the spec declares interchangeable: hyphen,
underscore, space, slash. -/
def isSepChar (c : Nat) : Prop := c = 45 ∨ c = 95 ∨ c = 32 ∨ c = 47

instance (c : Nat) : Decidable (isSepChar c) := by
  unfold isSepChar; infer_instance

/-! Descriptor resolution and caching (`lookup_hash`, digest.py lines
205-310).

`HashInfo` keeps the fields the cache logic observes: the constructor (as an
abstract identity, `Option Nat`) and the name row; a `uid` records object
identity so that "same instance" is expressible.  The `digest_size` /
`block_size` fields and the construction-time sanity checks of
`HashInfo.__init__` (lines 398-414) are not consulted by the caching logic
and are left out of this model (the KDF layer above takes the sizes
directly).  `_get_hash_const` and the constructor's self-reported name are
abstracted into a `DigestEnv`. -/

/-- Descriptor record: identity tag, constructor (by identity), name row. -/
structure HashInfo where
  uid : Nat
  const : Option Nat
  names : List (List Nat)
deriving DecidableEq, Repr

/-- Canonical (hashlib) name of a descriptor: head of its name row. -/
def HashInfo.name (i : HashInfo) : List Nat := i.names.headD []

/-- The argument accepted by `lookup_hash`: a name string, an
already-resolved descriptor, a constructor-like value, or anything else. -/
inductive DigestArg
  | name (s : List Nat)
  | info (i : HashInfo)
  | constRef (c : Nat)
  | other
deriving DecidableEq, Repr

/-- Keys of `_hash_info_cache`: name strings and constructor identities
(`HashInfo` values are unhashable in the source and never act as keys). -/
inductive CacheKey
  | name (s : List Nat)
  | constRef (c : Nat)
deriving DecidableEq, Repr

/-- The module-level mutable state: `_hash_info_cache` plus an allocation
counter giving each created `HashInfo` its identity. -/
structure LookupState where
  cache : List (CacheKey × HashInfo)
  nextUid : Nat
deriving DecidableEq, Repr

/-- The state at import time: empty cache. -/
def initState : LookupState := ⟨[], 0⟩

/-- `_hash_info_cache[k]`, `None` on a miss. -/
def findCache (k : CacheKey) (st : LookupState) : Option HashInfo :=
  (st.cache.find? (fun p => decide (p.1 = k))).map Prod.snd

/-- `_hash_info_cache[k] = v`. -/
def insertCache (k : CacheKey) (v : HashInfo) (st : LookupState) : LookupState :=
  { st with cache := (k, v) :: st.cache }

/-- The caching loop of lines 303-306: `cache[name] = info` for every
non-empty name of the row. -/
def cacheNames (info : HashInfo) (nl : List (List Nat)) (st : LookupState) : LookupState :=
  nl.foldl (fun acc nm => if nm = [] then acc else insertCache (.name nm) info acc) st

/-- Environment behind the resolver: `constOf` is `_get_hash_const`
(lines 158-203, constructor lookup by hashlib-format name), `reportedName`
reads a constructor value's self-reported canonical name (`const().name`,
line 275). -/
structure DigestEnv where
  constOf : List Nat → Option Nat
  reportedName : Nat → List Nat

/-- Failures of `lookup_hash`: `unknownHash` is `exc.UnknownHashError`,
`expectedType` is `exc.ExpectedTypeError` (the spec's
`UnsupportedIdentifierKind`), `assertionFailure` a failing Python `assert`,
and `outOfFuel` an artifact of the fueled embedding of the (depth ≤ 2)
recursion of lines 249-256, never returned for fuel ≥ 2. -/
inductive LookupError
  | unknownHash (name : List Nat)
  | expectedType
  | assertionFailure
  | outOfFuel
deriving DecidableEq, Repr

/-- `lookup_hash(digest, return_unknown)` (lines 205-307), with explicit
state and fuel bounding the recursive call of line 250.

Name path: consult the cache; normalize; `assert name` (line 245); if the
name was not already in hashlib format, resolve the normalized name
recursively, pass a dummy record through uncached (lines 252-254), else
cache the result under the original string; otherwise look up the
constructor, returning an uncached dummy record (tolerant mode) or
`UnknownHashError` when absent, and on success create the descriptor and
cache it by constructor and by every name of its row.

Descriptor path (line 267-269): returned unchanged.

Constructor path (lines 271-292): consult the cache by identity; normalize
the self-reported name; if the authoritative constructor for that name
exists and differs, cache only by identity (`cache_by_name = False`),
otherwise also by name.

Anything else: `ExpectedTypeError` (line 294-295). -/
def lookupHashFuel (env : DigestEnv) : Nat → DigestArg → Bool → LookupState →
    Except LookupError (HashInfo × LookupState)
  | fuel, .name s, return_unknown, st =>
    match findCache (.name s) st with
    | some info => .ok (info, st)
    | none =>
      let name_list := _get_hash_aliases s
      let name := name_list.headD []
      if name = [] then .error .assertionFailure
      else if name ≠ s then
        match fuel with
        | 0 => .error .outOfFuel
        | f + 1 =>
          match lookupHashFuel env f (.name name) return_unknown st with
          | .error e => .error e
          | .ok (info, st1) =>
            if info.const = none then
              if return_unknown then .ok (info, st1) else .error .assertionFailure
            else .ok (info, insertCache (.name s) info st1)
      else
        match env.constOf name with
        | none =>
          if return_unknown then
            .ok (⟨st.nextUid, none, name_list⟩, { st with nextUid := st.nextUid + 1 })
          else .error (.unknownHash name)
        | some c =>
          let info : HashInfo := ⟨st.nextUid, some c, name_list⟩
          let st1 : LookupState := { st with nextUid := st.nextUid + 1 }
          .ok (info, cacheNames info name_list (insertCache (.constRef c) info st1))
  | _, .info i, _, st => .ok (i, st)
  | _, .constRef c, return_unknown, st =>
    match findCache (.constRef c) st with
    | some info => .ok (info, st)
    | none =>
      let name_list := _get_hash_aliases (env.reportedName c)
      let name := name_list.headD []
      let cache_by_name : Bool :=
        match env.constOf name with
        | none => true
        | some c2 => c2 = c
      let info : HashInfo := ⟨st.nextUid, some c, name_list⟩
      let st1 : LookupState := { st with nextUid := st.nextUid + 1 }
      if cache_by_name then
        .ok (info, cacheNames info name_list (insertCache (.constRef c) info st1))
      else
        .ok (info, insertCache (.constRef c) info st1)
  | _, .other, _, _ => .error .expectedType

/-- `lookup_hash` with enough fuel for its (≤ 2-deep) name recursion. -/
def lookup_hash (env : DigestEnv) (digest : DigestArg) (return_unknown : Bool)
    (st : LookupState) : Except LookupError (HashInfo × LookupState) :=
  lookupHashFuel env 2 digest return_unknown st

/-- Sample environment for concrete runs: one real constructor, named
`sha256`. -/
def sampleEnv : DigestEnv where
  constOf := fun s => if s = strNat "sha256" then some 37 else none
  reportedName := fun c => if c = 37 then strNat "sha256" else strNat "mock"

/-- Descriptor component of a resolution result, used to transport
definitional evaluations of `lookupHashFuel` along result equations. -/
def exceptInfo (r : Except LookupError (HashInfo × LookupState)) : Option HashInfo :=
  match r with
  | .ok (i, _) => some i
  | .error _ => none

/-- State component of a resolution result. -/
def exceptState (r : Except LookupError (HashInfo × LookupState)) : Option LookupState :=
  match r with
  | .ok (_, st) => some st
  | .error _ => none

/-! Arithmetic facts about the big-endian byte encoding, used to relate the
`int.from_bytes` / integer-XOR inner loop of `_pbkdf2_looper` to octet-wise
XOR accumulation. -/

theorem ofBytesBE_go (l : Bytes) (a : Nat) :
    l.foldl (fun acc b => acc * 256 + b) a = a * 256 ^ l.length + ofBytesBE l := by
  induction l generalizing a with
  | nil => simp [ofBytesBE]
  | cons x xs ih =>
    simp only [List.foldl_cons, List.length_cons, ofBytesBE]
    rw [ih (a * 256 + x), ih (0 * 256 + x)]
    ring

theorem ofBytesBE_cons (x : Nat) (xs : Bytes) :
    ofBytesBE (x :: xs) = x * 256 ^ xs.length + ofBytesBE xs := by
  show List.foldl _ (0 * 256 + x) xs = _
  rw [ofBytesBE_go]
  ring

theorem ofBytesBE_lt (l : Bytes) (h : bytesWF l) : ofBytesBE l < 256 ^ l.length := by
  induction l with
  | nil => simp [ofBytesBE]
  | cons x xs ih =>
    have hx : x < 256 := h x (List.mem_cons_self x xs)
    have hxs : ofBytesBE xs < 256 ^ xs.length := ih (fun b hb => h b (List.mem_cons_of_mem _ hb))
    rw [ofBytesBE_cons]
    calc x * 256 ^ xs.length + ofBytesBE xs
        < x * 256 ^ xs.length + 256 ^ xs.length := by omega
      _ = (x + 1) * 256 ^ xs.length := by ring
      _ ≤ 256 * 256 ^ xs.length := by
          exact Nat.mul_le_mul_right _ (by omega)
      _ = 256 ^ (x :: xs).length := by rw [List.length_cons]; ring

theorem pow256_eq_two_pow (n : Nat) : (256 : Nat) ^ n = 2 ^ (8 * n) := by
  rw [Nat.pow_mul]

/-- Splitting XOR across a big-endian "digit" decomposition. -/
theorem xor_digit_split (x y A B k : Nat) (hA : A < 2 ^ k) (hB : B < 2 ^ k) :
    (x * 2 ^ k + A) ^^^ (y * 2 ^ k + B) = (x ^^^ y) * 2 ^ k + (A ^^^ B) := by
  apply Nat.eq_of_testBit_eq
  intro j
  have hAB : A ^^^ B < 2 ^ k := Nat.xor_lt_two_pow hA hB
  rw [Nat.testBit_xor, Nat.mul_comm x, Nat.mul_comm y, Nat.mul_comm (x ^^^ y),
    Nat.testBit_mul_pow_two_add _ hA, Nat.testBit_mul_pow_two_add _ hB,
    Nat.testBit_mul_pow_two_add _ hAB]
  by_cases hj : j < k
  · simp [hj, Nat.testBit_xor]
  · simp [hj, Nat.testBit_xor]

/-- `int.from_bytes` turns octet-wise XOR into integer XOR. -/
theorem ofBytesBE_xorBytes (a b : Bytes) (hlen : a.length = b.length)
    (ha : bytesWF a) (hb : bytesWF b) :
    ofBytesBE (xorBytes a b) = ofBytesBE a ^^^ ofBytesBE b := by
  induction a generalizing b with
  | nil =>
    have : b = [] := by
      cases b with
      | nil => rfl
      | cons y ys => simp at hlen
    subst this
    simp [xorBytes, ofBytesBE]
  | cons x xs ih =>
    cases b with
    | nil => simp at hlen
    | cons y ys =>
      have hlen' : xs.length = ys.length := by simpa using hlen
      have hxs : bytesWF xs := fun c hc => ha c (List.mem_cons_of_mem _ hc)
      have hys : bytesWF ys := fun c hc => hb c (List.mem_cons_of_mem _ hc)
      have hx : ofBytesBE xs < 2 ^ (8 * xs.length) := by
        rw [← pow256_eq_two_pow]; exact ofBytesBE_lt xs hxs
      have hy : ofBytesBE ys < 2 ^ (8 * xs.length) := by
        rw [← pow256_eq_two_pow, hlen']; exact ofBytesBE_lt ys hys
      have hzip : (List.zipWith (fun u v => u ^^^ v) xs ys).length = xs.length := by
        simp [hlen']
      simp only [xorBytes, List.zipWith_cons_cons] at *
      rw [ofBytesBE_cons, ofBytesBE_cons, ofBytesBE_cons, hzip,
        ih ys hlen' hxs hys, ← hlen', pow256_eq_two_pow]
      exact (xor_digit_split x y _ _ _ hx hy).symm

/-- Round trip: re-encoding `int.from_bytes l` over `l.length` octets gives `l` back. -/
theorem toBytesBE_ofBytesBE (l : Bytes) (h : bytesWF l) :
    toBytesBE l.length (ofBytesBE l) = l := by
  induction l using List.reverseRecOn with
  | nil => simp [ofBytesBE, toBytesBE]
  | append_singleton xs a ih =>
    have ha : a < 256 := h a (by simp)
    have hxs : bytesWF xs := fun c hc => h c (by simp [hc])
    have hof : ofBytesBE (xs ++ [a]) = ofBytesBE xs * 256 + a := by
      simp [ofBytesBE, List.foldl_append]
    rw [hof, List.length_append, List.length_cons, List.length_nil, toBytesBE]
    have hdiv : (ofBytesBE xs * 256 + a) / 256 = ofBytesBE xs := by omega
    have hmod : (ofBytesBE xs * 256 + a) % 256 = a := by omega
    rw [hdiv, hmod, ih hxs]

theorem toBytesBE_length (k n : Nat) : (toBytesBE k n).length = k := by
  induction k generalizing n with
  | zero => simp [toBytesBE]
  | succ k ih => simp [toBytesBE, ih]

theorem toBytesBE_wf (k n : Nat) : bytesWF (toBytesBE k n) := by
  induction k generalizing n with
  | zero => intro b hb; simp [toBytesBE] at hb
  | succ k ih =>
    intro b hb
    simp only [toBytesBE, List.mem_append, List.mem_cons, List.not_mem_nil] at hb
    rcases hb with hb | hb | hb
    · exact ih _ b hb
    · subst hb; exact Nat.mod_lt _ (by omega)
    · exact absurd hb (by simp)

theorem xorBytes_length (a b : Bytes) : (xorBytes a b).length = min a.length b.length := by
  simp [xorBytes]

theorem xorBytes_wf (a b : Bytes) (ha : bytesWF a) (hb : bytesWF b) :
    bytesWF (xorBytes a b) := by
  induction a generalizing b with
  | nil => intro c hc; simp [xorBytes] at hc
  | cons x xs ih =>
    intro c hc
    cases b with
    | nil => simp [xorBytes] at hc
    | cons y ys =>
      simp only [xorBytes, List.zipWith_cons_cons, List.mem_cons] at hc
      rcases hc with hc | hc
      · subst hc
        have h1 : x < 256 := ha x (List.mem_cons_self x xs)
        have h2 : y < 256 := hb y (List.mem_cons_self y ys)
        have := Nat.xor_lt_two_pow (n := 8) (by simpa using h1) (by simpa using h2)
        simpa using this
      · exact ih ys (fun u hu => ha u (List.mem_cons_of_mem _ hu))
          (fun u hu => hb u (List.mem_cons_of_mem _ hu)) c hc

theorem xorBytes_zero (l : Bytes) (n : Nat) (h : l.length = n) :
    xorBytes (List.replicate n 0) l = l := by
  subst h
  induction l with
  | nil => simp [xorBytes]
  | cons x xs ih =>
    simp only [List.length_cons, List.replicate_succ, xorBytes, List.zipWith_cons_cons]
    rw [Nat.zero_xor]
    exact congrArg (x :: ·) ih

theorem _TRANS_36_getD (b : Nat) (hb : b < 256) : _TRANS_36.getD b 0 = b ^^^ 0x36 := by
  simp [_TRANS_36, List.getD, List.getElem?_map, List.getElem?_range hb]

theorem _TRANS_5C_getD (b : Nat) (hb : b < 256) : _TRANS_5C.getD b 0 = b ^^^ 0x5C := by
  simp [_TRANS_5C, List.getD, List.getElem?_map, List.getElem?_range hb]

theorem pyTranslate_36 (s : Bytes) (hs : bytesWF s) :
    pyTranslate _TRANS_36 s = s.map (fun b => b ^^^ 0x36) := by
  exact List.map_congr_left (fun b hb => _TRANS_36_getD b (hs b hb))

theorem pyTranslate_5C (s : Bytes) (hs : bytesWF s) :
    pyTranslate _TRANS_5C s = s.map (fun b => b ^^^ 0x5C) := by
  exact List.map_congr_left (fun b hb => _TRANS_5C_getD b (hs b hb))

theorem hmacPadKey_wf (const : Bytes → Bytes) (ds bs : Nat) (key : Bytes)
    (hkey : bytesWF key) (hdig : bytesWF (const key)) :
    bytesWF (hmacPadKey const ds bs key) := by
  intro b hb
  simp only [hmacPadKey] at hb
  split at hb
  all_goals
    simp only [List.mem_append, List.mem_replicate] at hb
    rcases hb with hb | hb
  · exact hdig b hb
  · omega
  · exact hkey b hb
  · omega

theorem hmacPadKey_eq_spec (const : Bytes → Bytes) (ds bs : Nat) (key : Bytes)
    (hlen : (const key).length = ds) :
    hmacPadKey const ds bs key =
      (if bs < key.length then const key else key) ++
        List.replicate (bs - (if bs < key.length then const key else key).length) 0 := by
  simp only [hmacPadKey]
  split
  · rw [hlen]
  · rfl

theorem pbkdf2BytesAccum_length_wf (mac : Bytes → Bytes) (ds : Nat)
    (hmac : macWF mac ds) (n : Nat) (d A : Bytes) (hA : A.length = ds) (hwf : bytesWF A) :
    (pbkdf2BytesAccum mac n d A).length = ds ∧ bytesWF (pbkdf2BytesAccum mac n d A) := by
  induction n generalizing d A with
  | zero => exact ⟨hA, hwf⟩
  | succ n ih =>
    simp only [pbkdf2BytesAccum]
    exact ih (mac d) _
      (by rw [xorBytes_length, hA, (hmac d).1]; simp)
      (xorBytes_wf _ _ hwf (hmac d).2)

/-- The integer-XOR accumulation of the py3 looper tracks octet-wise XOR
accumulation through `int.from_bytes`. -/
theorem pbkdf2LooperAccum_eq (mac : Bytes → Bytes) (ds : Nat) (hmac : macWF mac ds)
    (n : Nat) (d A : Bytes) (hA : A.length = ds) (hwf : bytesWF A) :
    pbkdf2LooperAccum mac n d (ofBytesBE A) = ofBytesBE (pbkdf2BytesAccum mac n d A) := by
  induction n generalizing d A with
  | zero => rfl
  | succ n ih =>
    simp only [pbkdf2LooperAccum, pbkdf2BytesAccum]
    rw [← ofBytesBE_xorBytes A (mac d) (by rw [hA, (hmac d).1]) hwf (hmac d).2]
    exact ih (mac d) _
      (by rw [xorBytes_length, hA, (hmac d).1]; simp)
      (xorBytes_wf _ _ hwf (hmac d).2)

/-- The py3 "from-bytes" looper agrees with the octet-wise XOR accumulation
helper of the "unpack" backend on every well-formed digest. -/
theorem pbkdf2Looper_eq_unpackHelper (mac : Bytes → Bytes) (ds : Nat)
    (hmac : macWF mac ds) (u1 : Bytes) (hlen : u1.length = ds) (hwf : bytesWF u1)
    (r : Nat) :
    pbkdf2Looper ds mac u1 r = pbkdf2UnpackHelper mac u1 r := by
  unfold pbkdf2Looper pbkdf2UnpackHelper
  rw [pbkdf2LooperAccum_eq mac ds hmac _ u1 u1 hlen hwf]
  obtain ⟨hl, hw⟩ := pbkdf2BytesAccum_length_wf mac ds hmac (r - 1) u1 u1 hlen hwf
  rw [← hl, toBytesBE_ofBytesBE _ hw]

/-- Unrolled form of the XOR accumulation: the chain of MAC iterates. -/
theorem pbkdf2BytesAccum_eq_foldl (mac : Bytes → Bytes) (n : Nat) (d A : Bytes) :
    pbkdf2BytesAccum mac n d A =
      (List.range n).foldl (fun acc j => xorBytes acc (mac^[j] (mac d))) A := by
  induction n generalizing d A with
  | zero => rfl
  | succ n ih =>
    simp only [pbkdf2BytesAccum]
    rw [ih (mac d) _, List.range_succ_eq_map, List.foldl_cons, List.foldl_map]
    simp only [Function.iterate_zero, id_eq, Function.iterate_succ_apply]

/-- The specification block `T_i` equals the accumulation helper run on
`U_1 = mac(salt ‖ be32 i)`. -/
theorem pbkdf2SpecT_eq_unpackHelper (mac : Bytes → Bytes) (ds : Nat)
    (hmac : macWF mac ds) (salt : Bytes) (r i : Nat) (hr : 1 ≤ r) :
    pbkdf2SpecT ds mac salt r i = pbkdf2UnpackHelper mac (mac (salt ++ be32 i)) r := by
  unfold pbkdf2SpecT pbkdf2UnpackHelper
  obtain ⟨r, rfl⟩ : ∃ m, r = m + 1 := ⟨r - 1, by omega⟩
  rw [List.range_succ_eq_map, List.foldl_cons, List.foldl_map,
    pbkdf2BytesAccum_eq_foldl]
  simp only [Function.iterate_zero, id_eq, Function.iterate_succ_apply,
    Nat.add_sub_cancel]
  rw [xorBytes_zero _ ds (hmac _).1]

/-- The single-shot `compile_hmac` MAC is well formed whenever the underlying
digest constructor is. -/
theorem compile_hmac_macWF (const : Bytes → Bytes) (ds bs : Nat)
    (hconst : macWF const ds) (key : Bytes) :
    macWF (compile_hmac const ds bs key) ds := by
  intro m
  exact hconst _

/-- C1: for every descriptor with a constructor, every secret, salt,
`rounds ≥ 1`, and `keylen` with `1 ≤ keylen` and
`block_count = ceil(keylen / digest_size) ≤ 2^32 - 1`, the builtin
("from-bytes") path of `pbkdf2_hmac` returns the standardized PBKDF2 result:
with `mac = compile_hmac(descriptor, secret)`, for each 1-based block index
`i` from 1 to `block_count`, `U_1 = mac(salt ‖ be32(i))`,
`U_{j+1} = mac(U_j)`, `T_i = U_1 XOR … XOR U_rounds`; the result is
`T_1 ‖ … ‖ T_block_count` truncated to the first `keylen` octets. -/
theorem pbkdf2_hmac_builtin_correct (const : Bytes → Bytes) (ds bs : Nat)
    (secret salt : Bytes) (rounds keylen : Int)
    (hds : 0 < ds) (hconst : macWF const ds)
    (hr : 1 ≤ rounds) (hk : 1 ≤ keylen)
    (hbc : (keylen.toNat + ds - 1) / ds ≤ MAX_UINT32) :
    pbkdf2_hmac .fromBytes const ds bs none secret salt rounds (some keylen) =
      .ok (pbkdf2Spec ds (compile_hmac const ds bs secret) salt
        rounds.toNat keylen.toNat ((keylen.toNat + ds - 1) / ds)) := by
  have hmac : macWF (compile_hmac const ds bs secret) ds :=
    compile_hmac_macWF const ds bs hconst secret
  have h1 : ¬ rounds < 1 := by omega
  have h2 : ¬ keylen < 1 := by omega
  have h3 : ¬ MAX_UINT32 < (keylen.toNat + ds - 1) / ds := hbc.not_lt
  simp only [pbkdf2_hmac, pbkdf2Derive, if_neg h1, if_neg h2, if_neg h3]
  unfold pbkdf2Spec
  congr 2
  congr 1
  apply List.map_congr_left
  intro i _
  rw [pbkdf2SpecT_eq_unpackHelper _ ds hmac salt _ i (by omega)]
  exact pbkdf2Looper_eq_unpackHelper _ ds hmac _ (hmac _).1 (hmac _).2 _

theorem toyConst4_macWF : macWF toyConst4 4 := by
  intro m
  refine ⟨rfl, ?_⟩
  intro b hb
  simp only [toyConst4, List.mem_cons, List.not_mem_nil, or_false] at hb
  rcases hb with hb | hb | hb | hb <;> omega

/-- Witness for C1 on a toy 4-octet digest. -/
theorem pbkdf2_hmac_builtin_correct_witness :
    pbkdf2_hmac .fromBytes toyConst4 4 16 none [1, 2] [3] 2 (some 5) =
      .ok (pbkdf2Spec 4 (compile_hmac toyConst4 4 16 [1, 2]) [3] 2 5 2) := by
  exact pbkdf2_hmac_builtin_correct toyConst4 4 16 [1, 2] [3] 2 5
    (by decide) toyConst4_macWF (by decide) (by decide) (by decide)

/-- C2: `pbkdf2_hmac` validates in this exact order: `rounds < 1` fails with
`InvalidParameter` (`invalidRounds`) first, whatever `keylen` holds; then an
explicit `keylen < 1` fails with `InvalidParameter` (`invalidKeylen`); then
`block_count = ceil(keylen / digest_size) > 2^32 - 1` fails with
`KeyTooLong`; an omitted `keylen` defaults to `digest_size`.  Each failure is
stated for every backend and accelerated-backend configuration, so the same
error surfaces regardless of backend. -/
theorem pbkdf2_hmac_validation_order (backend : PbkdfBackendKind)
    (const : Bytes → Bytes) (ds bs : Nat)
    (accel : Option (Bytes → Bytes → Int → Nat → Bytes))
    (secret salt : Bytes) (rounds k : Int) :
    (rounds < 1 → ∀ keylen,
      pbkdf2_hmac backend const ds bs accel secret salt rounds keylen =
        .error .invalidRounds) ∧
    (1 ≤ rounds → k < 1 →
      pbkdf2_hmac backend const ds bs accel secret salt rounds (some k) =
        .error .invalidKeylen) ∧
    (1 ≤ rounds → 1 ≤ k → MAX_UINT32 < (k.toNat + ds - 1) / ds →
      pbkdf2_hmac backend const ds bs accel secret salt rounds (some k) =
        .error .keyTooLong) ∧
    (1 ≤ (ds : Int) →
      pbkdf2_hmac backend const ds bs accel secret salt rounds none =
        pbkdf2_hmac backend const ds bs accel secret salt rounds (some (ds : Int))) := by
  refine ⟨?_, ?_, ?_, ?_⟩
  · intro hr keylen
    cases keylen <;> simp [pbkdf2_hmac, if_pos hr]
  · intro hr hk
    simp [pbkdf2_hmac, if_neg (by omega : ¬ rounds < 1), if_pos hk]
  · intro hr hk hbc
    simp [pbkdf2_hmac, pbkdf2Derive, if_neg (by omega : ¬ rounds < 1),
      if_neg (by omega : ¬ k < 1), if_pos hbc]
  · intro hds
    by_cases hr : rounds < 1
    · simp [pbkdf2_hmac, if_pos hr]
    · simp only [pbkdf2_hmac, if_neg hr, if_neg (by omega : ¬ (ds : Int) < 1)]
      rw [Int.toNat_natCast]

/-- Witness for C2 at concrete inputs. -/
theorem pbkdf2_hmac_validation_order_witness :
    pbkdf2_hmac .fromBytes toyConst4 4 16 none [] [] 0 (some 1) =
        .error .invalidRounds ∧
    pbkdf2_hmac .fromBytes toyConst4 4 16 none [] [] 3 (some 0) =
        .error .invalidKeylen ∧
    pbkdf2_hmac .fromBytes toyConst4 4 16 none [] [] 3 (some (2 ^ 34 + 1)) =
        .error .keyTooLong ∧
    pbkdf2_hmac .fromBytes toyConst4 4 16 none [] [] 3 none =
        pbkdf2_hmac .fromBytes toyConst4 4 16 none [] [] 3 (some 4) := by
  refine ⟨?_, ?_, ?_, ?_⟩
  · exact (pbkdf2_hmac_validation_order .fromBytes toyConst4 4 16 none [] [] 0 1).1
      (by decide) (some 1)
  · exact (pbkdf2_hmac_validation_order .fromBytes toyConst4 4 16 none [] [] 3 0).2.1
      (by decide) (by decide)
  · exact (pbkdf2_hmac_validation_order .fromBytes toyConst4 4 16 none [] [] 3
      (2 ^ 34 + 1)).2.2.1 (by decide) (by decide) (by decide)
  · exact (pbkdf2_hmac_validation_order .fromBytes toyConst4 4 16 none [] [] 3 4).2.2.2
      (by decide)

/-- C7: `pbkdf1` fails with `InvalidParameter` when `rounds < 1`, defaults
`keylen` to the digest size, fails with `InvalidParameter` when an explicit
`keylen` is outside `0 ≤ keylen ≤ digest_size`, and otherwise returns the
first `keylen` octets of the block obtained by seeding with
`secret ‖ salt` and applying the digest `rounds` times. -/
theorem pbkdf1_correct (const : Bytes → Bytes) (ds : Nat) (secret salt : Bytes)
    (rounds k : Int) :
    (rounds < 1 → ∀ keylen,
      pbkdf1 const ds secret salt rounds keylen = .error .invalidRounds) ∧
    (1 ≤ rounds →
      pbkdf1 const ds secret salt rounds none =
        pbkdf1 const ds secret salt rounds (some (ds : Int))) ∧
    (1 ≤ rounds → k < 0 →
      pbkdf1 const ds secret salt rounds (some k) = .error .invalidKeylen) ∧
    (1 ≤ rounds → 0 ≤ k → (ds : Int) < k →
      pbkdf1 const ds secret salt rounds (some k) = .error .keylenTooLargeForDigest) ∧
    (1 ≤ rounds → 0 ≤ k → k ≤ (ds : Int) →
      pbkdf1 const ds secret salt rounds (some k) =
        .ok ((const^[rounds.toNat] (secret ++ salt)).take k.toNat)) := by
  have hloop : ∀ r b, pbkdf1Loop const r b = const^[r] b := by
    intro r
    induction r with
    | zero => intro b; rfl
    | succ r ih =>
      intro b
      rw [pbkdf1Loop, List.range_succ_eq_map, List.foldl_cons, List.foldl_map,
        Function.iterate_succ_apply]
      exact ih (const b)
  refine ⟨?_, ?_, ?_, ?_, ?_⟩
  · intro hr keylen
    cases keylen <;> simp [pbkdf1, if_pos hr]
  · intro hr
    simp only [pbkdf1, if_neg (by omega : ¬ rounds < 1),
      if_neg (by omega : ¬ (ds : Int) < 0), if_neg (by omega : ¬ (ds : Int) < (ds : Int))]
    rw [Int.toNat_natCast]
  · intro hr hk
    simp [pbkdf1, if_neg (by omega : ¬ rounds < 1), if_pos hk]
  · intro hr hk0 hkd
    simp [pbkdf1, if_neg (by omega : ¬ rounds < 1), if_neg (by omega : ¬ k < 0),
      if_pos hkd]
  · intro hr hk0 hkd
    simp only [pbkdf1, if_neg (by omega : ¬ rounds < 1), if_neg (by omega : ¬ k < 0),
      if_neg (by omega : ¬ (ds : Int) < k)]
    rw [hloop]

/-- Witness for C7 at concrete inputs. -/
theorem pbkdf1_correct_witness :
    pbkdf1 toyConst4 4 [1] [2] 0 (some 1) = .error .invalidRounds ∧
    pbkdf1 toyConst4 4 [1] [2] 2 none = pbkdf1 toyConst4 4 [1] [2] 2 (some 4) ∧
    pbkdf1 toyConst4 4 [1] [2] 2 (some (-1)) = .error .invalidKeylen ∧
    pbkdf1 toyConst4 4 [1] [2] 2 (some 5) = .error .keylenTooLargeForDigest ∧
    pbkdf1 toyConst4 4 [1] [2] 2 (some 3) =
      .ok ((toyConst4^[2] ([1] ++ [2])).take 3) := by
  refine ⟨?_, ?_, ?_, ?_, ?_⟩
  · exact (pbkdf1_correct toyConst4 4 [1] [2] 0 1).1 (by decide) (some 1)
  · exact (pbkdf1_correct toyConst4 4 [1] [2] 2 1).2.1 (by decide)
  · exact (pbkdf1_correct toyConst4 4 [1] [2] 2 (-1)).2.2.1 (by decide) (by decide)
  · exact (pbkdf1_correct toyConst4 4 [1] [2] 2 5).2.2.2.1 (by decide) (by decide)
      (by decide)
  · exact (pbkdf1_correct toyConst4 4 [1] [2] 2 3).2.2.2.2 (by decide) (by decide)
      (by decide)

theorem pbkdf2_hmac_digest_size_2_ok :
    pbkdf2_hmac .fromBytes toyConst2 2 16 none [1] [2] 1 (some 2) =
      .ok (toyConst2 ((List.map (fun b => b ^^^ 0x5C) (List.replicate 16 0)) ++
        toyConst2 ((List.map (fun b => b ^^^ 0x36) (List.replicate 16 0)) ++
          ([2] ++ [0, 0, 0, 1])))) := by
  rfl

/-- C9 (amended): only the "unpack" builtin backend — the branch compiled on
Python 2 or under a forced backend — fails with `UnsupportedDigestSize`
when the digest size is not a multiple of 4, for every otherwise-valid
secret, salt, rounds and keylen reaching the builtin path. -/
theorem pbkdf2_hmac_unpack_digest_size (const : Bytes → Bytes) (ds bs : Nat)
    (secret salt : Bytes) (rounds keylen : Int)
    (hmod : ds % 4 ≠ 0) (hr : 1 ≤ rounds) (hk : 1 ≤ keylen)
    (hbc : (keylen.toNat + ds - 1) / ds ≤ MAX_UINT32) :
    pbkdf2_hmac .unpack const ds bs none secret salt rounds (some keylen) =
      .error .unsupportedDigestSize := by
  simp [pbkdf2_hmac, pbkdf2Derive, if_neg (by omega : ¬ rounds < 1),
    if_neg (by omega : ¬ keylen < 1), if_neg hbc.not_lt, hmod]

/-- Witness for the amended C9 theorem. -/
theorem pbkdf2_hmac_unpack_digest_size_witness :
    pbkdf2_hmac .unpack toyConst2 2 16 none [1] [2] 1 (some 2) =
      .error .unsupportedDigestSize := by
  exact pbkdf2_hmac_unpack_digest_size toyConst2 2 16 [1] [2] 1 2
    (by decide) (by decide) (by decide) (by decide)

/-- C3: for a descriptor with `block_size ≥ 16` and an octet key,
`compile_hmac` applies the standard HMAC key schedule (digest the key when
longer than the block, zero-pad to the block size) and its single-shot
function computes the standard HMAC: hash `(key XOR 0x36) ‖ message`, then
hash `(key XOR 0x5C) ‖ (that digest)`. -/
theorem compile_hmac_is_standard_hmac (const : Bytes → Bytes) (ds bs : Nat)
    (key : Bytes) (hbs : 16 ≤ bs) (hkey : bytesWF key)
    (hlen : (const key).length = ds) (hdig : bytesWF (const key)) :
    ∀ msg, compile_hmac const ds bs key msg = hmacSpec const bs key msg := by
  intro msg
  have hwf : bytesWF (hmacPadKey const ds bs key) := hmacPadKey_wf const ds bs key hkey hdig
  simp only [compile_hmac, hmacSpec, hmacOuterSeed, hmacInnerSeed,
    pyTranslate_36 _ hwf, pyTranslate_5C _ hwf]
  rw [hmacPadKey_eq_spec const ds bs key hlen]

/-- Witness for C3 at concrete inputs. -/
theorem compile_hmac_is_standard_hmac_witness :
    compile_hmac toyConst4 4 16 [1, 2, 3] [9] = hmacSpec toyConst4 16 [1, 2, 3] [9] := by
  exact compile_hmac_is_standard_hmac toyConst4 4 16 [1, 2, 3]
    (by decide) (by decide) (by decide) (by decide) [9]

theorem runMultipart_eq_singleShot (const : Bytes → Bytes) (outer inner : Bytes) :
    ∀ (ops : List MacOp) (m : Bytes),
      runMultipart const outer ops (inner ++ m) =
        singleShotOutputs (fun msg => const (outer ++ const (inner ++ msg))) ops m := by
  intro ops
  induction ops with
  | nil => intro m; rfl
  | cons op ops ih =>
    intro m
    cases op with
    | update c =>
      simp only [runMultipart, singleShotOutputs, hmacUpdate, List.append_assoc]
      exact ih (m ++ c)
    | finalize =>
      simp only [runMultipart, singleShotOutputs, hmacFinalize]
      exact congrArg _ (ih m)

/-- C4: for every two-chunk split of a message, updating the multipart HMAC
with both chunks and finalizing equals the single-shot HMAC of the whole
message; more generally, over any interleaving of `update` and `finalize`
calls, every `finalize` reports the single-shot HMAC of the chunks fed so
far (so `finalize` never disturbs later `update` calls). -/
theorem multipart_hmac_agrees (const : Bytes → Bytes) (ds bs : Nat) (key : Bytes)
    (c1 c2 : Bytes) (ops : List MacOp) :
    (hmacFinalize const (hmacOuterSeed const ds bs key)
        (hmacUpdate (hmacUpdate (hmacMultipartStart const ds bs key) c1) c2) =
      compile_hmac const ds bs key (c1 ++ c2)) ∧
    (runMultipart const (hmacOuterSeed const ds bs key) ops
        (hmacMultipartStart const ds bs key) =
      singleShotOutputs (compile_hmac const ds bs key) ops []) := by
  constructor
  · simp [hmacFinalize, hmacUpdate, hmacMultipartStart, compile_hmac, List.append_assoc]
  · have h := runMultipart_eq_singleShot const (hmacOuterSeed const ds bs key)
      (hmacMultipartStart const ds bs key) ops []
    rw [List.append_nil] at h
    exact h

theorem pyLowerChar_idem (c : Nat) : pyLowerChar (pyLowerChar c) = pyLowerChar c := by
  unfold pyLowerChar
  split_ifs <;> omega

theorem isPySpaceChar_pyLowerChar (c : Nat) :
    isPySpaceChar (pyLowerChar c) = isPySpaceChar c := by
  unfold pyLowerChar isPySpaceChar
  split_ifs with h
  · rw [Bool.eq_iff_iff]
    simp only [Bool.or_eq_true, decide_eq_true_eq]
    omega
  · rfl

theorem pyStrip_map_pyLower (s : List Nat) :
    pyStrip (s.map pyLowerChar) = (pyStrip s).map pyLowerChar := by
  have hfn : (isPySpaceChar ∘ pyLowerChar) = isPySpaceChar := funext isPySpaceChar_pyLowerChar
  unfold pyStrip
  rw [List.dropWhile_map, hfn, ← List.map_reverse, List.dropWhile_map, hfn,
    ← List.map_reverse]

theorem cleanHashName_map_pyLower (s : List Nat) :
    cleanHashName (s.map pyLowerChar) = cleanHashName s := by
  unfold cleanHashName
  rw [pyStrip_map_pyLower]
  simp only [List.map_map]
  apply List.map_congr_left
  intro c _
  simp only [Function.comp_apply, pyLowerChar_idem]

/-- Resolution only looks at the cleaned name. -/
theorem _get_hash_aliases_congr {x y : List Nat} (h : cleanHashName x = cleanHashName y) :
    _get_hash_aliases x = _get_hash_aliases y := by
  unfold _get_hash_aliases
  rw [h]

theorem cleanHashName_sep_invariant (s : List Nat) (f : Nat → Nat)
    (hsep : ∀ c ∈ s, isSepChar c → isSepChar (f c))
    (hfix : ∀ c ∈ s, ¬ isSepChar c → f c = c)
    (hs : pyStrip s = s) (hfs : pyStrip (s.map f) = s.map f) :
    cleanHashName (s.map f) = cleanHashName s := by
  unfold cleanHashName
  rw [hs, hfs]
  simp only [List.map_map]
  apply List.map_congr_left
  intro c hc
  by_cases h : isSepChar c
  · have h2 := hsep c hc h
    simp only [Function.comp_apply]
    rcases h with rfl | rfl | rfl | rfl <;>
      rcases h2 with h2 | h2 | h2 | h2 <;> rw [h2] <;> rfl
  · simp only [Function.comp_apply, hfix c hc h]

/-- C5: resolution is insensitive to case (resolving the lowercased string
gives the same row) and to the separator characters hyphen, underscore,
space and slash (any map exchanging separators on a whitespace-trimmed name
gives the same row); and the IANA-style name `"SHA2-256"` resolves, via the
alias row, to the same canonical (hashlib) name as the bare `"sha256"`. -/
theorem hash_name_resolution_insensitive :
    (∀ s : List Nat, _get_hash_aliases (s.map pyLowerChar) = _get_hash_aliases s) ∧
    (∀ (s : List Nat) (f : Nat → Nat),
      (∀ c ∈ s, isSepChar c → isSepChar (f c)) →
      (∀ c ∈ s, ¬ isSepChar c → f c = c) →
      pyStrip s = s → pyStrip (s.map f) = s.map f →
      _get_hash_aliases (s.map f) = _get_hash_aliases s) ∧
    hashlibNameOf (strNat "SHA2-256") = hashlibNameOf (strNat "sha256") ∧
    hashlibNameOf (strNat "SHA2-256") = strNat "sha256" := by
  refine ⟨?_, ?_, ?_, ?_⟩
  · intro s
    exact _get_hash_aliases_congr (cleanHashName_map_pyLower s)
  · intro s f hsep hfix hs hfs
    exact _get_hash_aliases_congr (cleanHashName_sep_invariant s f hsep hfix hs hfs)
  · decide
  · decide

/-- Witness for C5: exchanging the hyphen of `"sha-256"` for an underscore
(and uppercasing) resolves to the same row. -/
theorem hash_name_resolution_insensitive_witness :
    _get_hash_aliases ((strNat "sha-256").map (fun c => if c = 45 then 95 else c)) =
        _get_hash_aliases (strNat "sha-256") ∧
    _get_hash_aliases ((strNat "SHA-256").map pyLowerChar) =
        _get_hash_aliases (strNat "SHA-256") := by
  constructor
  · exact hash_name_resolution_insensitive.2.1 (strNat "sha-256")
      (fun c => if c = 45 then 95 else c) (by decide) (by decide) (by decide) (by decide)
  · exact hash_name_resolution_insensitive.1 (strNat "SHA-256")

theorem findCache_insert (k k2 : CacheKey) (v : HashInfo) (st : LookupState) :
    findCache k (insertCache k2 v st) = if k2 = k then some v else findCache k st := by
  simp only [findCache, insertCache, List.find?_cons]
  by_cases h : k2 = k
  · simp [h]
  · simp [h]

theorem cacheNames_nextUid (info : HashInfo) (nl : List (List Nat)) (st : LookupState) :
    (cacheNames info nl st).nextUid = st.nextUid := by
  induction nl generalizing st with
  | nil => rfl
  | cons x xs ih =>
    simp only [cacheNames, List.foldl_cons]
    by_cases hx : x = []
    · simp only [if_pos hx]
      exact ih st
    · simp only [if_neg hx]
      exact ih (insertCache (.name x) info st)

theorem findCache_cacheNames (info : HashInfo) (nl : List (List Nat))
    (st : LookupState) (k : CacheKey) :
    findCache k (cacheNames info nl st) =
      if ∃ nm, nm ∈ nl ∧ nm ≠ [] ∧ k = CacheKey.name nm then some info
      else findCache k st := by
  induction nl generalizing st with
  | nil => simp [cacheNames]
  | cons x xs ih =>
    have hstep : cacheNames info (x :: xs) st =
        cacheNames info xs (if x = [] then st else insertCache (.name x) info st) := rfl
    rw [hstep]
    by_cases hx : x = []
    · rw [if_pos hx]
      rw [ih st]
      by_cases hex : ∃ nm, nm ∈ xs ∧ nm ≠ [] ∧ k = CacheKey.name nm
      · rw [if_pos hex, if_pos]
        obtain ⟨nm, h1, h2, h3⟩ := hex
        exact ⟨nm, List.mem_cons_of_mem _ h1, h2, h3⟩
      · rw [if_neg hex, if_neg]
        rintro ⟨nm, h1, h2, h3⟩
        rcases List.mem_cons.mp h1 with rfl | h1
        · exact h2 hx
        · exact hex ⟨nm, h1, h2, h3⟩
    · rw [if_neg hx]
      rw [ih (insertCache (.name x) info st)]
      by_cases hex : ∃ nm, nm ∈ xs ∧ nm ≠ [] ∧ k = CacheKey.name nm
      · rw [if_pos hex, if_pos]
        obtain ⟨nm, h1, h2, h3⟩ := hex
        exact ⟨nm, List.mem_cons_of_mem _ h1, h2, h3⟩
      · rw [if_neg hex, findCache_insert]
        by_cases hk : CacheKey.name x = k
        · rw [if_pos hk, if_pos]
          exact ⟨x, List.mem_cons_self x xs, hx, hk.symm⟩
        · rw [if_neg hk, if_neg]
          rintro ⟨nm, h1, h2, h3⟩
          rcases List.mem_cons.mp h1 with rfl | h1
          · exact hk h3.symm
          · exact hex ⟨nm, h1, h2, h3⟩

theorem headD_mem {α : Type} (l : List α) (d : α) (h : l ≠ []) : l.headD d ∈ l := by
  cases l with
  | nil => exact absurd rfl h
  | cons a t => exact List.mem_cons_self a t

/-- With a canonical (already-hashlib-format) name, `lookupHashFuel` never
recurses, so the fuel is irrelevant. -/
theorem lookupHashFuel_fix (env : DigestEnv) (s : List Nat)
    (hfix : hashlibNameOf s = s) (f g : Nat) (ru : Bool) (st : LookupState) :
    lookupHashFuel env f (.name s) ru st = lookupHashFuel env g (.name s) ru st := by
  cases hfind : findCache (.name s) st with
  | some info => rw [lookupHashFuel.eq_1, lookupHashFuel.eq_1, hfind]
  | none =>
    rw [hashlibNameOf] at hfix
    rw [lookupHashFuel.eq_1, lookupHashFuel.eq_1, hfind]
    simp only [hfix]
    by_cases hs : s = []
    · simp [hs]
    · simp [hs]

/-! Step lemmas: the value of `lookupHashFuel` on each branch of the source. -/

theorem lookupHashFuel_name_hit (env : DigestEnv) (f : Nat) (s : List Nat) (ru : Bool)
    (st : LookupState) (i : HashInfo) (hfind : findCache (.name s) st = some i) :
    lookupHashFuel env f (.name s) ru st = .ok (i, st) := by
  rw [lookupHashFuel.eq_1, hfind]

theorem lookupHashFuel_info_arg (env : DigestEnv) (f : Nat) (i : HashInfo) (ru : Bool)
    (st : LookupState) :
    lookupHashFuel env f (.info i) ru st = .ok (i, st) := by
  rw [lookupHashFuel.eq_2]

theorem lookupHashFuel_other_arg (env : DigestEnv) (f : Nat) (ru : Bool)
    (st : LookupState) :
    lookupHashFuel env f .other ru st = .error .expectedType := by
  rw [lookupHashFuel.eq_4]

theorem lookupHashFuel_constRef_hit (env : DigestEnv) (f : Nat) (c : Nat) (ru : Bool)
    (st : LookupState) (i : HashInfo) (hfind : findCache (.constRef c) st = some i) :
    lookupHashFuel env f (.constRef c) ru st = .ok (i, st) := by
  rw [lookupHashFuel.eq_3, hfind]

theorem lookupHashFuel_name_assert (env : DigestEnv) (f : Nat) (s : List Nat) (ru : Bool)
    (st : LookupState) (hfind : findCache (.name s) st = none)
    (hname : hashlibNameOf s = []) :
    lookupHashFuel env f (.name s) ru st = .error .assertionFailure := by
  rw [hashlibNameOf, List.headD_eq_head?_getD] at hname
  rw [lookupHashFuel.eq_1, hfind]
  simp [hname]

theorem lookupHashFuel_name_noncanon (env : DigestEnv) (f : Nat) (s n : List Nat)
    (ru : Bool) (st : LookupState) (hfind : findCache (.name s) st = none)
    (hn : hashlibNameOf s = n) (hname : n ≠ []) (hne : n ≠ s) :
    lookupHashFuel env (f + 1) (.name s) ru st =
      (match lookupHashFuel env f (.name n) ru st with
       | .error e => .error e
       | .ok (info, st1) =>
         if info.const = none then
           if ru = true then .ok (info, st1) else .error .assertionFailure
         else .ok (info, insertCache (.name s) info st1)) := by
  rw [hashlibNameOf, List.headD_eq_head?_getD] at hn
  rw [lookupHashFuel.eq_1, hfind]
  simp only [List.headD_eq_head?_getD, hn, if_neg hname, ne_eq, hne, not_false_iff,
    if_pos, if_true]

theorem lookupHashFuel_name_canon_none (env : DigestEnv) (f : Nat) (s : List Nat)
    (ru : Bool) (st : LookupState) (hfind : findCache (.name s) st = none)
    (hfix : hashlibNameOf s = s) (hs : s ≠ []) (hc : env.constOf s = none) :
    lookupHashFuel env f (.name s) ru st =
      if ru = true then
        .ok (⟨st.nextUid, none, _get_hash_aliases s⟩, ⟨st.cache, st.nextUid + 1⟩)
      else .error (.unknownHash s) := by
  rw [hashlibNameOf, List.headD_eq_head?_getD] at hfix
  rw [lookupHashFuel.eq_1, hfind]
  simp [hfix, hs, hc]

theorem lookupHashFuel_name_canon_some (env : DigestEnv) (f : Nat) (s : List Nat)
    (ru : Bool) (st : LookupState) (c : Nat) (hfind : findCache (.name s) st = none)
    (hfix : hashlibNameOf s = s) (hs : s ≠ []) (hc : env.constOf s = some c) :
    lookupHashFuel env f (.name s) ru st =
      .ok (⟨st.nextUid, some c, _get_hash_aliases s⟩,
        cacheNames ⟨st.nextUid, some c, _get_hash_aliases s⟩ (_get_hash_aliases s)
          (insertCache (.constRef c) ⟨st.nextUid, some c, _get_hash_aliases s⟩
            ⟨st.cache, st.nextUid + 1⟩)) := by
  rw [hashlibNameOf, List.headD_eq_head?_getD] at hfix
  rw [lookupHashFuel.eq_1, hfind]
  simp [hfix, hs, hc]

theorem lookupHashFuel_constRef_miss (env : DigestEnv) (f : Nat) (c : Nat) (ru : Bool)
    (st : LookupState) (hfind : findCache (.constRef c) st = none) :
    lookupHashFuel env f (.constRef c) ru st =
      (if (match env.constOf ((_get_hash_aliases (env.reportedName c)).headD []) with
           | none => true
           | some c2 => decide (c2 = c)) = true then
        .ok (⟨st.nextUid, some c, _get_hash_aliases (env.reportedName c)⟩,
          cacheNames ⟨st.nextUid, some c, _get_hash_aliases (env.reportedName c)⟩
            (_get_hash_aliases (env.reportedName c))
            (insertCache (.constRef c)
              ⟨st.nextUid, some c, _get_hash_aliases (env.reportedName c)⟩
              ⟨st.cache, st.nextUid + 1⟩))
      else
        .ok (⟨st.nextUid, some c, _get_hash_aliases (env.reportedName c)⟩,
          insertCache (.constRef c)
            ⟨st.nextUid, some c, _get_hash_aliases (env.reportedName c)⟩
            ⟨st.cache, st.nextUid + 1⟩)) := by
  rw [lookupHashFuel.eq_3, hfind]

/-- C6: for every identifier that resolves successfully to a descriptor with
a constructor, (1) resolving again from the resulting state returns the
identical descriptor instance and leaves the state unchanged; (2) a
non-canonical name is resolved by first resolving the canonical name and
reusing that very descriptor — the state only gains the extra cache key, no
new instance is allocated; (3) a canonical-name resolution caches the
descriptor under the constructor reference and under every non-empty name
and alias of its row. -/
theorem lookup_hash_identity_cached (env : DigestEnv) :
    (∀ (arg : DigestArg) (ru : Bool) (st st2 : LookupState) (info : HashInfo),
      lookup_hash env arg ru st = .ok (info, st2) → info.const ≠ none →
      lookup_hash env arg ru st2 = .ok (info, st2)) ∧
    (∀ (s : List Nat) (ru : Bool) (st st1 : LookupState) (info : HashInfo),
      hashlibNameOf s ≠ s → hashlibNameOf s ≠ [] →
      hashlibNameOf (hashlibNameOf s) = hashlibNameOf s →
      findCache (.name s) st = none →
      lookup_hash env (.name (hashlibNameOf s)) ru st = .ok (info, st1) →
      info.const ≠ none →
      lookup_hash env (.name s) ru st = .ok (info, insertCache (.name s) info st1)) ∧
    (∀ (s : List Nat) (ru : Bool) (st st2 : LookupState) (info : HashInfo) (c : Nat),
      hashlibNameOf s = s → findCache (.name s) st = none →
      lookup_hash env (.name s) ru st = .ok (info, st2) → info.const = some c →
      findCache (.constRef c) st2 = some info ∧
      (∀ nm ∈ _get_hash_aliases s, nm ≠ [] → findCache (.name nm) st2 = some info)) := by
  refine ⟨?_, ?_, ?_⟩
  · intro arg ru st st2 info h hconst
    cases arg with
    | name s =>
      cases hfind : findCache (.name s) st with
      | some i =>
        rw [lookup_hash, lookupHashFuel_name_hit env 2 s ru st i hfind] at h
        simp only [Except.ok.injEq, Prod.mk.injEq] at h
        obtain ⟨rfl, rfl⟩ := h
        rw [lookup_hash, lookupHashFuel_name_hit env 2 s ru st i hfind]
      | none =>
        by_cases hname : hashlibNameOf s = []
        · rw [lookup_hash, lookupHashFuel_name_assert env 2 s ru st hfind hname] at h
          exact absurd h (by simp)
        · by_cases hne : hashlibNameOf s = s
          · have hs : s ≠ [] := by rw [← hne]; exact hname
            cases hc : env.constOf s with
            | none =>
              rw [lookup_hash,
                lookupHashFuel_name_canon_none env 2 s ru st hfind hne hs hc] at h
              cases ru with
              | false => exact absurd h (by simp)
              | true =>
                rw [if_pos (show (true : Bool) = true from rfl)] at h
                simp only [Except.ok.injEq, Prod.mk.injEq] at h
                exact absurd (show info.const = none by rw [← h.1]) hconst
            | some c =>
              rw [lookup_hash,
                lookupHashFuel_name_canon_some env 2 s ru st c hfind hne hs hc] at h
              simp only [Except.ok.injEq, Prod.mk.injEq] at h
              obtain ⟨h1, h2⟩ := h
              have hnl : _get_hash_aliases s ≠ [] := by
                intro hnil
                apply hs
                rw [← hne, hashlibNameOf, hnil]
                rfl
              have hmem : s ∈ _get_hash_aliases s := by
                have hh := headD_mem (_get_hash_aliases s) [] hnl
                rw [show (_get_hash_aliases s).headD [] = s from hne] at hh
                exact hh
              have hfind2 : findCache (.name s) st2 = some info := by
                rw [← h2, findCache_cacheNames, if_pos ⟨s, hmem, hs, rfl⟩, h1]
              rw [lookup_hash, lookupHashFuel_name_hit env 2 s ru st2 info hfind2]
          · rw [lookup_hash, show (2 : Nat) = 1 + 1 from rfl,
              lookupHashFuel_name_noncanon env 1 s (hashlibNameOf s) ru st hfind rfl
                hname hne] at h
            cases hin : lookupHashFuel env 1 (.name (hashlibNameOf s)) ru st with
            | error e =>
              rw [hin] at h
              exact absurd h (by simp)
            | ok p =>
              obtain ⟨i1, s1⟩ := p
              rw [hin] at h
              by_cases hc1 : i1.const = none
              · simp only [if_pos hc1] at h
                cases ru with
                | false => exact absurd h (by simp)
                | true =>
                  rw [if_pos (show (true : Bool) = true from rfl)] at h
                  simp only [Except.ok.injEq, Prod.mk.injEq] at h
                  exact absurd (show info.const = none by rw [← h.1, hc1]) hconst
              · simp only [if_neg hc1, Except.ok.injEq, Prod.mk.injEq] at h
                obtain ⟨h1, h2⟩ := h
                have hfind2 : findCache (.name s) st2 = some info := by
                  rw [← h2, findCache_insert, if_pos rfl, h1]
                rw [lookup_hash, lookupHashFuel_name_hit env 2 s ru st2 info hfind2]
    | info i =>
      rw [lookup_hash, lookupHashFuel_info_arg] at h
      simp only [Except.ok.injEq, Prod.mk.injEq] at h
      obtain ⟨rfl, rfl⟩ := h
      rw [lookup_hash, lookupHashFuel_info_arg]
    | constRef c =>
      cases hfind : findCache (.constRef c) st with
      | some i =>
        rw [lookup_hash, lookupHashFuel_constRef_hit env 2 c ru st i hfind] at h
        simp only [Except.ok.injEq, Prod.mk.injEq] at h
        obtain ⟨rfl, rfl⟩ := h
        rw [lookup_hash, lookupHashFuel_constRef_hit env 2 c ru st i hfind]
      | none =>
        rw [lookup_hash, lookupHashFuel_constRef_miss env 2 c ru st hfind] at h
        have hnokey : ¬ ∃ nm, nm ∈ _get_hash_aliases (env.reportedName c) ∧ nm ≠ [] ∧
            CacheKey.constRef c = CacheKey.name nm := by
          rintro ⟨nm, -, -, hk⟩
          simp at hk
        split at h
        · simp only [Except.ok.injEq, Prod.mk.injEq] at h
          obtain ⟨h1, h2⟩ := h
          have hfind2 : findCache (.constRef c) st2 = some info := by
            rw [← h2, findCache_cacheNames, if_neg hnokey, findCache_insert,
              if_pos rfl, h1]
          rw [lookup_hash, lookupHashFuel_constRef_hit env 2 c ru st2 info hfind2]
        · simp only [Except.ok.injEq, Prod.mk.injEq] at h
          obtain ⟨h1, h2⟩ := h
          have hfind2 : findCache (.constRef c) st2 = some info := by
            rw [← h2, findCache_insert, if_pos rfl, h1]
          rw [lookup_hash, lookupHashFuel_constRef_hit env 2 c ru st2 info hfind2]
    | other =>
      rw [lookup_hash, lookupHashFuel_other_arg] at h
      exact absurd h (by simp)
  · intro s ru st st1 info hne hname hfix hfind hcanon hconst
    rw [lookup_hash] at hcanon ⊢
    rw [show (2 : Nat) = 1 + 1 from rfl,
      lookupHashFuel_name_noncanon env 1 s (hashlibNameOf s) ru st hfind rfl hname hne,
      lookupHashFuel_fix env (hashlibNameOf s) hfix 1 2 ru st, hcanon]
    simp only [if_neg hconst]
  · intro s ru st st2 info c hfix hfind h hconst
    by_cases hs : s = []
    · subst hs
      rw [lookup_hash, lookupHashFuel_name_assert env 2 [] ru st hfind hfix] at h
      exact absurd h (by simp)
    · cases hc : env.constOf s with
      | none =>
        rw [lookup_hash,
          lookupHashFuel_name_canon_none env 2 s ru st hfind hfix hs hc] at h
        cases ru with
        | false => exact absurd h (by simp)
        | true =>
          rw [if_pos (show (true : Bool) = true from rfl)] at h
          simp only [Except.ok.injEq, Prod.mk.injEq] at h
          have : info.const = none := by rw [← h.1]
          rw [this] at hconst
          exact absurd hconst (by simp)
      | some c2 =>
        rw [lookup_hash,
          lookupHashFuel_name_canon_some env 2 s ru st c2 hfind hfix hs hc] at h
        simp only [Except.ok.injEq, Prod.mk.injEq] at h
        obtain ⟨h1, h2⟩ := h
        have hnokey : ¬ ∃ nm, nm ∈ _get_hash_aliases s ∧ nm ≠ [] ∧
            CacheKey.constRef c2 = CacheKey.name nm := by
          rintro ⟨nm, -, -, hk⟩
          simp at hk
        have hcc : c2 = c := by
          have : info.const = some c2 := by rw [← h1]
          rw [this] at hconst
          exact (Option.some.injEq _ _ ▸ hconst : c2 = c)
        subst hcc
        constructor
        · rw [← h2, findCache_cacheNames, if_neg hnokey, findCache_insert,
            if_pos rfl, h1]
        · intro nm hmem hnm
          rw [← h2, findCache_cacheNames, if_pos ⟨nm, hmem, hnm, rfl⟩, h1]

/-- Witness for C6: resolving `"sha-256"` against the sample environment
reuses the descriptor created for `"sha256"`, and resolving again from the
resulting state returns the identical instance. -/
theorem lookup_hash_identity_cached_witness :
    (lookup_hash sampleEnv (.name (strNat "sha-256")) false initState =
      .ok (⟨0, some 37, _get_hash_aliases (strNat "sha256")⟩,
        insertCache (.name (strNat "sha-256"))
          ⟨0, some 37, _get_hash_aliases (strNat "sha256")⟩
          (cacheNames ⟨0, some 37, _get_hash_aliases (strNat "sha256")⟩
            (_get_hash_aliases (strNat "sha256"))
            (insertCache (.constRef 37)
              ⟨0, some 37, _get_hash_aliases (strNat "sha256")⟩ ⟨[], 1⟩)))) ∧
    (lookup_hash sampleEnv (.name (strNat "sha256")) false
        (cacheNames ⟨0, some 37, _get_hash_aliases (strNat "sha256")⟩
          (_get_hash_aliases (strNat "sha256"))
          (insertCache (.constRef 37)
            ⟨0, some 37, _get_hash_aliases (strNat "sha256")⟩ ⟨[], 1⟩)) =
      .ok (⟨0, some 37, _get_hash_aliases (strNat "sha256")⟩,
        cacheNames ⟨0, some 37, _get_hash_aliases (strNat "sha256")⟩
          (_get_hash_aliases (strNat "sha256"))
          (insertCache (.constRef 37)
            ⟨0, some 37, _get_hash_aliases (strNat "sha256")⟩ ⟨[], 1⟩))) := by
  constructor
  · refine (lookup_hash_identity_cached sampleEnv).2.1 (strNat "sha-256") false initState
      _ _ ?_ ?_ ?_ ?_ ?_ ?_
    · decide
    · decide
    · decide
    · decide
    · rfl
    · decide
  · refine (lookup_hash_identity_cached sampleEnv).1 (.name (strNat "sha256")) false
      initState _ _ ?_ ?_
    · rfl
    · decide

/-- C8 (amended): for a name whose normalized hashlib form is nonempty and
canonical-stable, non-tolerant resolution from the initial state fails with
`UnknownHash` exactly when `_get_hash_const` has no constructor for the
normalized name; tolerant resolution never fails on such a name and returns
a constructor-absent descriptor on exactly the same condition; and both
modes fail with `ExpectedTypeError` (the spec's `UnsupportedIdentifierKind`)
when the argument is neither a name, a descriptor, nor a constructor-like
value. -/
theorem lookup_hash_error_modes (env : DigestEnv) (s : List Nat)
    (hname : hashlibNameOf s ≠ [])
    (hfix : hashlibNameOf (hashlibNameOf s) = hashlibNameOf s) :
    (lookup_hash env (.name s) false initState =
        .error (.unknownHash (hashlibNameOf s)) ↔
      env.constOf (hashlibNameOf s) = none) ∧
    (∃ info st2, lookup_hash env (.name s) true initState = .ok (info, st2) ∧
      (info.const = none ↔ env.constOf (hashlibNameOf s) = none)) ∧
    (∀ (ru : Bool) (st : LookupState),
      lookup_hash env .other ru st = .error .expectedType) := by
  have hfind : findCache (.name s) initState = none := rfl
  have hfindn : findCache (.name (hashlibNameOf s)) initState = none := rfl
  refine ⟨?_, ?_, fun ru st => by rw [lookup_hash, lookupHashFuel_other_arg]⟩
  · by_cases hne : hashlibNameOf s = s
    · have hs : s ≠ [] := by rw [← hne]; exact hname
      cases hc : env.constOf (hashlibNameOf s) with
      | none =>
        have hc' : env.constOf s = none := by rw [← hne]; exact hc
        apply iff_of_true _ rfl
        rw [lookup_hash,
          lookupHashFuel_name_canon_none env 2 s false initState hfind hne hs hc', hne]
        simp
      | some c =>
        have hc' : env.constOf s = some c := by rw [← hne]; exact hc
        apply iff_of_false
        · rw [lookup_hash,
            lookupHashFuel_name_canon_some env 2 s false initState c hfind hne hs hc']
          simp
        · simp [hc]
    · rw [lookup_hash, show (2 : Nat) = 1 + 1 from rfl,
        lookupHashFuel_name_noncanon env 1 s (hashlibNameOf s) false initState hfind
          rfl hname hne]
      cases hc : env.constOf (hashlibNameOf s) with
      | none =>
        rw [lookupHashFuel_name_canon_none env 1 (hashlibNameOf s) false initState
          hfindn hfix hname hc]
        apply iff_of_true _ rfl
        simp
      | some c =>
        rw [lookupHashFuel_name_canon_some env 1 (hashlibNameOf s) false initState c
          hfindn hfix hname hc]
        apply iff_of_false
        · simp
        · simp [hc]
  · by_cases hne : hashlibNameOf s = s
    · have hs : s ≠ [] := by rw [← hne]; exact hname
      cases hc : env.constOf (hashlibNameOf s) with
      | none =>
        have hc' : env.constOf s = none := by rw [← hne]; exact hc
        refine ⟨⟨0, none, _get_hash_aliases s⟩, ⟨[], 1⟩, ?_, by simp⟩
        rw [lookup_hash,
          lookupHashFuel_name_canon_none env 2 s true initState hfind hne hs hc']
        rfl
      | some c =>
        have hc' : env.constOf s = some c := by rw [← hne]; exact hc
        refine ⟨⟨0, some c, _get_hash_aliases s⟩,
          cacheNames ⟨0, some c, _get_hash_aliases s⟩ (_get_hash_aliases s)
            (insertCache (.constRef c) ⟨0, some c, _get_hash_aliases s⟩ ⟨[], 1⟩),
          ?_, by simp [hc]⟩
        rw [lookup_hash,
          lookupHashFuel_name_canon_some env 2 s true initState c hfind hne hs hc']
        rfl
    · rw [lookup_hash, show (2 : Nat) = 1 + 1 from rfl,
        lookupHashFuel_name_noncanon env 1 s (hashlibNameOf s) true initState hfind
          rfl hname hne]
      cases hc : env.constOf (hashlibNameOf s) with
      | none =>
        rw [lookupHashFuel_name_canon_none env 1 (hashlibNameOf s) true initState
          hfindn hfix hname hc]
        refine ⟨⟨0, none, _get_hash_aliases (hashlibNameOf s)⟩, ⟨[], 1⟩, ?_, by simp⟩
        rfl
      | some c =>
        rw [lookupHashFuel_name_canon_some env 1 (hashlibNameOf s) true initState c
          hfindn hfix hname hc]
        refine ⟨⟨0, some c, _get_hash_aliases (hashlibNameOf s)⟩,
          insertCache (.name s) ⟨0, some c, _get_hash_aliases (hashlibNameOf s)⟩
            (cacheNames ⟨0, some c, _get_hash_aliases (hashlibNameOf s)⟩
              (_get_hash_aliases (hashlibNameOf s))
              (insertCache (.constRef c)
                ⟨0, some c, _get_hash_aliases (hashlibNameOf s)⟩ ⟨[], 1⟩)),
          ?_, by simp [hc]⟩
        rfl

/-- Witness for the amended C8 theorem: the unknown name `"foo"` fails
non-tolerantly with `UnknownHash` in the sample environment. -/
theorem lookup_hash_error_modes_witness :
    lookup_hash sampleEnv (.name (strNat "foo")) false initState =
      .error (.unknownHash (hashlibNameOf (strNat "foo"))) := by
  exact (lookup_hash_error_modes sampleEnv (strNat "foo") (by decide) (by decide)).1.mpr
    (by decide)

/-- C8 counterexample: for the empty name (a name string), no constructor
exists for its normalized form, yet non-tolerant resolution fails with the
`assert name` assertion (not with `UnknownHash`), and tolerant resolution
fails as well (instead of never failing on unknown names). -/
theorem lookup_hash_empty_name_assertion :
    lookup_hash sampleEnv (.name []) false initState = .error .assertionFailure ∧
    lookup_hash sampleEnv (.name []) true initState = .error .assertionFailure ∧
    sampleEnv.constOf (hashlibNameOf []) = none := by
  exact ⟨rfl, rfl, rfl⟩

theorem findCache_wf (st : LookupState) (hwf : ∀ p ∈ st.cache, p.2.const ≠ none)
    (k : CacheKey) (i : HashInfo) (h : findCache k st = some i) : i.const ≠ none := by
  unfold findCache at h
  cases hh : st.cache.find? (fun p => decide (p.1 = k)) with
  | none => rw [hh] at h; simp at h
  | some pr =>
    rw [hh] at h
    simp at h
    rw [← h]
    exact hwf pr (List.mem_of_find?_eq_some hh)

/-- `lookupHashFuel` at fuel 2 on a non-canonical name: one recursion step. -/
theorem lookupHashFuel_name_noncanon_two (env : DigestEnv) (s n : List Nat)
    (ru : Bool) (st : LookupState) (hfind : findCache (.name s) st = none)
    (hn : hashlibNameOf s = n) (hname : n ≠ []) (hne : n ≠ s) :
    lookupHashFuel env 2 (.name s) ru st =
      (match lookupHashFuel env 1 (.name n) ru st with
       | .error e => .error e
       | .ok (info, st1) =>
         if info.const = none then
           if ru = true then .ok (info, st1) else .error .assertionFailure
         else .ok (info, insertCache (.name s) info st1)) :=
  lookupHashFuel_name_noncanon env 1 s n ru st hfind hn hname hne

/-- `lookupHashFuel` at fuel 1 on a non-canonical name: recursion at fuel 0. -/
theorem lookupHashFuel_name_noncanon_one (env : DigestEnv) (s n : List Nat)
    (ru : Bool) (st : LookupState) (hfind : findCache (.name s) st = none)
    (hn : hashlibNameOf s = n) (hname : n ≠ []) (hne : n ≠ s) :
    lookupHashFuel env 1 (.name s) ru st =
      (match lookupHashFuel env 0 (.name n) ru st with
       | .error e => .error e
       | .ok (info, st1) =>
         if info.const = none then
           if ru = true then .ok (info, st1) else .error .assertionFailure
         else .ok (info, insertCache (.name s) info st1)) :=
  lookupHashFuel_name_noncanon env 0 s n ru st hfind hn hname hne

/-- `lookupHashFuel` at fuel 0 on a non-canonical name runs out of fuel
(never reached from `lookup_hash` on real names, whose canonical form is
stable after one normalization). -/
theorem lookupHashFuel_name_noncanon_zero (env : DigestEnv) (s n : List Nat)
    (ru : Bool) (st : LookupState) (hfind : findCache (.name s) st = none)
    (hn : hashlibNameOf s = n) (hname : n ≠ []) (hne : n ≠ s) :
    lookupHashFuel env 0 (.name s) ru st = .error .outOfFuel := by
  rw [hashlibNameOf, List.headD_eq_head?_getD] at hn
  rw [lookupHashFuel.eq_1, hfind]
  simp only [List.headD_eq_head?_getD, hn, if_neg hname, ne_eq, hne, not_false_iff,
    if_pos, if_true]

/-- A tolerant resolution that returns a constructor-absent dummy descriptor
is a pure pass-through: the dummy is freshly allocated from the counter,
the cache is untouched, the same resolution fails with `UnknownHash` in
non-tolerant mode, and the run's shape does not depend on the counter. -/
theorem lookup_hash_dummy_master (env : DigestEnv) (s : List Nat)
    (cache : List (CacheKey × HashInfo)) (n : Nat)
    (hwf : ∀ p ∈ cache, p.2.const ≠ none)
    (info : HashInfo) (st2 : LookupState)
    (h : lookupHashFuel env 2 (.name s) true ⟨cache, n⟩ = .ok (info, st2))
    (hd : info.const = none) :
    ∃ nl nm,
      (∀ m, lookupHashFuel env 2 (.name s) true ⟨cache, m⟩ =
        .ok (⟨m, none, nl⟩, ⟨cache, m + 1⟩)) ∧
      info = ⟨n, none, nl⟩ ∧ st2 = ⟨cache, n + 1⟩ ∧
      (∀ m, lookupHashFuel env 2 (.name s) false ⟨cache, m⟩ =
        .error (.unknownHash nm)) := by
  cases hfind : findCache (.name s) (⟨cache, n⟩ : LookupState) with
  | some i =>
    rw [lookupHashFuel_name_hit env 2 s true _ i hfind] at h
    have hI := Option.some.inj (show some i = some info from congrArg exceptInfo h)
    exact absurd (show i.const = none by rw [hI]; exact hd)
      (findCache_wf _ hwf _ i hfind)
  | none =>
    by_cases hname1 : hashlibNameOf s = []
    · rw [lookupHashFuel_name_assert env 2 s true _ hfind hname1] at h
      exact absurd (show (none : Option HashInfo) = some info from
        congrArg exceptInfo h) (by simp)
    · by_cases hne1 : hashlibNameOf s = s
      · have hs : s ≠ [] := by rw [← hne1]; exact hname1
        cases hc1 : env.constOf s with
        | some c =>
          rw [lookupHashFuel_name_canon_some env 2 s true _ c hfind hne1 hs hc1] at h
          have hI := Option.some.inj
            (show some (⟨n, some c, _get_hash_aliases s⟩ : HashInfo) = some info from
              congrArg exceptInfo h)
          rw [← hI] at hd
          simp at hd
        | none =>
          rw [lookupHashFuel_name_canon_none env 2 s true _ hfind hne1 hs hc1] at h
          have hI := Option.some.inj
            (show some (⟨n, none, _get_hash_aliases s⟩ : HashInfo) = some info from
              congrArg exceptInfo h)
          have hS := Option.some.inj
            (show some (⟨cache, n + 1⟩ : LookupState) = some st2 from
              congrArg exceptState h)
          refine ⟨_get_hash_aliases s, s, ?_, hI.symm, hS.symm, ?_⟩
          · intro m
            rw [lookupHashFuel_name_canon_none env 2 s true ⟨cache, m⟩ hfind hne1 hs hc1]
            rfl
          · intro m
            rw [lookupHashFuel_name_canon_none env 2 s false ⟨cache, m⟩ hfind hne1 hs hc1]
            rfl
      · rw [lookupHashFuel_name_noncanon_two env s (hashlibNameOf s) true _ hfind rfl
          hname1 hne1] at h
        cases hfind1 : findCache (.name (hashlibNameOf s)) (⟨cache, n⟩ : LookupState) with
        | some i =>
          rw [lookupHashFuel_name_hit env 1 (hashlibNameOf s) true _ i hfind1] at h
          have hiwf : i.const ≠ none := findCache_wf _ hwf _ i hfind1
          simp only [if_neg hiwf] at h
          have hI := Option.some.inj (show some i = some info from congrArg exceptInfo h)
          exact absurd (show i.const = none by rw [hI]; exact hd) hiwf
        | none =>
          by_cases hname2 : hashlibNameOf (hashlibNameOf s) = []
          · rw [lookupHashFuel_name_assert env 1 (hashlibNameOf s) true _ hfind1
              hname2] at h
            exact absurd (show (none : Option HashInfo) = some info from
              congrArg exceptInfo h) (by simp)
          · by_cases hne2 : hashlibNameOf (hashlibNameOf s) = hashlibNameOf s
            · cases hc2 : env.constOf (hashlibNameOf s) with
              | some c =>
                rw [lookupHashFuel_name_canon_some env 1 (hashlibNameOf s) true _ c
                  hfind1 hne2 hname1 hc2] at h
                have hI := Option.some.inj
                  (show some (⟨n, some c, _get_hash_aliases (hashlibNameOf s)⟩ :
                      HashInfo) = some info from congrArg exceptInfo h)
                rw [← hI] at hd
                simp at hd
              | none =>
                rw [lookupHashFuel_name_canon_none env 1 (hashlibNameOf s) true _
                  hfind1 hne2 hname1 hc2] at h
                have hI := Option.some.inj
                  (show some (⟨n, none, _get_hash_aliases (hashlibNameOf s)⟩ :
                      HashInfo) = some info from congrArg exceptInfo h)
                have hS := Option.some.inj
                  (show some (⟨cache, n + 1⟩ : LookupState) = some st2 from
                    congrArg exceptState h)
                refine ⟨_get_hash_aliases (hashlibNameOf s), hashlibNameOf s, ?_,
                  hI.symm, hS.symm, ?_⟩
                · intro m
                  rw [lookupHashFuel_name_noncanon_two env s (hashlibNameOf s) true
                      ⟨cache, m⟩ hfind rfl hname1 hne1,
                    lookupHashFuel_name_canon_none env 1 (hashlibNameOf s) true
                      ⟨cache, m⟩ hfind1 hne2 hname1 hc2]
                  rfl
                · intro m
                  rw [lookupHashFuel_name_noncanon_two env s (hashlibNameOf s) false
                      ⟨cache, m⟩ hfind rfl hname1 hne1,
                    lookupHashFuel_name_canon_none env 1 (hashlibNameOf s) false
                      ⟨cache, m⟩ hfind1 hne2 hname1 hc2]
                  rfl
            · rw [lookupHashFuel_name_noncanon_one env (hashlibNameOf s)
                (hashlibNameOf (hashlibNameOf s)) true _ hfind1 rfl hname2 hne2] at h
              cases hfind2 : findCache (.name (hashlibNameOf (hashlibNameOf s)))
                  (⟨cache, n⟩ : LookupState) with
              | some i =>
                rw [lookupHashFuel_name_hit env 0 (hashlibNameOf (hashlibNameOf s))
                  true _ i hfind2] at h
                have hiwf : i.const ≠ none := findCache_wf _ hwf _ i hfind2
                simp only [if_neg hiwf] at h
                have hI := Option.some.inj
                  (show some i = some info from congrArg exceptInfo h)
                exact absurd (show i.const = none by rw [hI]; exact hd) hiwf
              | none =>
                by_cases hname3 :
                    hashlibNameOf (hashlibNameOf (hashlibNameOf s)) = []
                · rw [lookupHashFuel_name_assert env 0
                    (hashlibNameOf (hashlibNameOf s)) true _ hfind2 hname3] at h
                  exact absurd (show (none : Option HashInfo) = some info from
                    congrArg exceptInfo h) (by simp)
                · by_cases hne3 : hashlibNameOf (hashlibNameOf (hashlibNameOf s)) =
                      hashlibNameOf (hashlibNameOf s)
                  · cases hc3 : env.constOf (hashlibNameOf (hashlibNameOf s)) with
                    | some c =>
                      rw [lookupHashFuel_name_canon_some env 0
                        (hashlibNameOf (hashlibNameOf s)) true _ c hfind2 hne3
                        hname2 hc3] at h
                      have hI := Option.some.inj
                        (show some (⟨n, some c,
                            _get_hash_aliases (hashlibNameOf (hashlibNameOf s))⟩ :
                            HashInfo) = some info from congrArg exceptInfo h)
                      rw [← hI] at hd
                      simp at hd
                    | none =>
                      rw [lookupHashFuel_name_canon_none env 0
                        (hashlibNameOf (hashlibNameOf s)) true _ hfind2 hne3
                        hname2 hc3] at h
                      have hI := Option.some.inj
                        (show some (⟨n, none,
                            _get_hash_aliases (hashlibNameOf (hashlibNameOf s))⟩ :
                            HashInfo) = some info from congrArg exceptInfo h)
                      have hS := Option.some.inj
                        (show some (⟨cache, n + 1⟩ : LookupState) = some st2 from
                          congrArg exceptState h)
                      refine ⟨_get_hash_aliases (hashlibNameOf (hashlibNameOf s)),
                        hashlibNameOf (hashlibNameOf s), ?_, hI.symm, hS.symm, ?_⟩
                      · intro m
                        rw [lookupHashFuel_name_noncanon_two env s (hashlibNameOf s)
                            true ⟨cache, m⟩ hfind rfl hname1 hne1,
                          lookupHashFuel_name_noncanon_one env (hashlibNameOf s)
                            (hashlibNameOf (hashlibNameOf s)) true ⟨cache, m⟩ hfind1
                            rfl hname2 hne2,
                          lookupHashFuel_name_canon_none env 0
                            (hashlibNameOf (hashlibNameOf s)) true ⟨cache, m⟩ hfind2
                            hne3 hname2 hc3]
                        rfl
                      · intro m
                        rw [lookupHashFuel_name_noncanon_two env s (hashlibNameOf s)
                            false ⟨cache, m⟩ hfind rfl hname1 hne1,
                          lookupHashFuel_name_noncanon_one env (hashlibNameOf s)
                            (hashlibNameOf (hashlibNameOf s)) false ⟨cache, m⟩ hfind1
                            rfl hname2 hne2,
                          lookupHashFuel_name_canon_none env 0
                            (hashlibNameOf (hashlibNameOf s)) false ⟨cache, m⟩ hfind2
                            hne3 hname2 hc3]
                        rfl
                  · rw [lookupHashFuel_name_noncanon_zero env
                      (hashlibNameOf (hashlibNameOf s))
                      (hashlibNameOf (hashlibNameOf (hashlibNameOf s))) true _ hfind2
                      rfl hname3 hne3] at h
                    exact absurd (show (none : Option HashInfo) = some info from
                      congrArg exceptInfo h) (by simp)

/-- C10: a tolerant resolution of an unknown name returns a constructor-absent
dummy descriptor that is not inserted into the cache: the state keeps its
cache (only the allocation counter advances, the dummy being a fresh
instance), a subsequent non-tolerant resolution of the same name still fails
with `UnknownHash`, and a second tolerant resolution returns a distinct
descriptor instance. -/

theorem lookup_hash_dummy_uncached (env : DigestEnv) (s : List Nat)
    (st st2 : LookupState) (info : HashInfo)
    (hwf : ∀ p ∈ st.cache, p.2.const ≠ none)
    (h : lookup_hash env (.name s) true st = .ok (info, st2))
    (hd : info.const = none) :
    st2.cache = st.cache ∧ st2.nextUid = st.nextUid + 1 ∧ info.uid = st.nextUid ∧
    (∃ nm, lookup_hash env (.name s) false st2 = .error (.unknownHash nm)) ∧
    (∃ info2 st3, lookup_hash env (.name s) true st2 = .ok (info2, st3) ∧
      info2.uid ≠ info.uid) := by
  obtain ⟨cache, n⟩ := st
  obtain ⟨nl, nm, hall, hinfo, hst2, hfalse⟩ :=
    lookup_hash_dummy_master env s cache n hwf info st2 h hd
  subst hinfo
  subst hst2
  exact ⟨rfl, rfl, rfl, ⟨nm, hfalse (n + 1)⟩,
    ⟨⟨n + 1, none, nl⟩, ⟨cache, n + 2⟩, hall (n + 1), by simp⟩⟩

/-- Witness for C10 on the unknown name `"foo"`. -/
theorem lookup_hash_dummy_uncached_witness :
    (⟨[], 1⟩ : LookupState).cache = initState.cache ∧
    (⟨[], 1⟩ : LookupState).nextUid = initState.nextUid + 1 ∧
    (⟨0, none, [strNat "foo", strNat "foo"]⟩ : HashInfo).uid = initState.nextUid ∧
    (∃ nm, lookup_hash sampleEnv (.name (strNat "foo")) false ⟨[], 1⟩ =
      .error (.unknownHash nm)) ∧
    (∃ info2 st3, lookup_hash sampleEnv (.name (strNat "foo")) true ⟨[], 1⟩ =
        .ok (info2, st3) ∧
      info2.uid ≠ (⟨0, none, [strNat "foo", strNat "foo"]⟩ : HashInfo).uid) := by
  exact lookup_hash_dummy_uncached sampleEnv (strNat "foo") initState ⟨[], 1⟩
    ⟨0, none, [strNat "foo", strNat "foo"]⟩ (fun p hp => absurd hp (by simp [initState]))
    (by rfl) (by rfl)

end PasslibDigest

